import Mathlib

/-!
# GeigerMullerCounter: a shallow embedding of `main.c`

The firmware keeps three shared counters (`cpmCurrentCounter`, `cpmCounter`,
`secCounter`), a bit-banged UART driven by the Timer_A compare interrupt, and a
polling main loop that prints one report line.  Machine integers are natural
numbers with an explicit reduction modulo `2 ^ w` where the C code can overflow.
Memory-mapped registers are fields of the state; the value a handler finds in
`P1IFG` is supplied by the hardware and therefore is an input of the event.
-/

namespace GeigerMuller

/-! ## Constants -/

/-- `#define TUBE_FACTOR 57`. -/
def TUBE_FACTOR : Nat := 57

/-- Bit masks `BIT0`, `BIT1`, `BIT3`, `BIT4`, `BIT6` of the device header `msp430.h`. -/
def BIT0 : Nat := 0x01
def BIT1 : Nat := 0x02
def BIT3 : Nat := 0x08
def BIT4 : Nat := 0x10
def BIT6 : Nat := 0x40

/-- `#define GM_INPUT BIT4`. -/
def GM_INPUT : Nat := BIT4
/-- `#define RED_LED BIT0`. -/
def RED_LED : Nat := BIT0
/-- `#define GREEN_LED BIT6`. -/
def GREEN_LED : Nat := BIT6
/-- `#define SWITCH BIT3`. -/
def SWITCH : Nat := BIT3
/-- `#define UART_TX_PIN BIT1`. -/
def UART_TX_PIN : Nat := BIT1

/-- `#define MINUTE 60U`. -/
def MINUTE : Nat := 60

/-- `#define UART_TBIT (1000000 / 9600)`. -/
def UART_TBIT : Nat := 1000000 / 9600

/-- `#define ASCII_DIGIT_START 48`. -/
def ASCII_DIGIT_START : Nat := 48
/-- `#define MAX_NUMBER_DIGITS 5`. -/
def MAX_NUMBER_DIGITS : Nat := 5

/-- Capture/compare interrupt enable bit `CCIE` of `TACCTL0` (device header `msp430.h`). -/
def CCIE : Nat := 0x0010

/-! ## State -/

/-- The globals of `main.c`, the static `txBitCnt` of the timer handler, the
registers the code touches, the locals of `main`, and two observation logs:
`txCalls` (the arguments of the calls of `TimerA_UART_tx`, oldest first) and
`pinTrace` (the level of the transmit pin sampled after each timer interrupt). -/
structure State where
  txData : Nat
  cpmCounter : Nat
  cpmCurrentCounter : Nat
  secCounter : Nat
  txBitCnt : Nat
  P1DIR : Nat
  P1OUT : Nat
  P1IFG : Nat
  TACCTL0 : Nat
  TACCR0 : Nat
  TAR : Nat
  uSvPerHour : Nat
  uSvPerHourAscii : List Nat
  cpmAscii : List Nat
  counterAscii : List Nat
  secondsAscii : List Nat
  has_send_data : Nat
  txCalls : List Nat
  pinTrace : List Nat
deriving DecidableEq, Repr

/-- Level of the UART transmit line: 1 when bit `UART_TX_PIN` of `P1OUT` is set, else 0. -/
def txPin (s : State) : Nat :=
  if s.P1OUT &&& UART_TX_PIN ≠ 0 then 1 else 0

/-! ## Interrupt handlers -/

/-- `ISR_portChange` (PORT1 vector): particle detected and/or button pressed. -/
def ISR_portChange (s : State) : State :=
  let s1 :=
    if s.P1IFG &&& GM_INPUT ≠ 0 then
      { s with
        cpmCurrentCounter := (s.cpmCurrentCounter + 1) % 65536
        P1OUT := s.P1OUT ^^^ RED_LED
        P1IFG := s.P1IFG &&& (0xFF ^^^ GM_INPUT) }
    else s
  if s1.P1IFG &&& SWITCH ≠ 0 then
    { s1 with
      P1OUT := s1.P1OUT ^^^ GREEN_LED
      P1IFG := s1.P1IFG &&& (0xFF ^^^ SWITCH) }
  else s1

/-- `ISR_Timer_A_expire` (TIMERA0 vector): shifts one bit of the frame out. -/
def ISR_Timer_A_expire (s : State) : State :=
  if s.txBitCnt = 0 then
    { s with
      TACCTL0 := s.TACCTL0 &&& (0xFFFF ^^^ CCIE)
      txBitCnt := 10 }
  else
    let s1 :=
      if s.txData &&& 0x01 ≠ 0 then
        { s with P1OUT := s.P1OUT ||| UART_TX_PIN }
      else
        { s with P1OUT := s.P1OUT &&& (0xFF ^^^ UART_TX_PIN) }
    { s1 with
      txData := s1.txData >>> 1
      txBitCnt := s1.txBitCnt - 1 }

/-- `ISR_WDT_expire` (WDT vector): the one-second time base. -/
def ISR_WDT_expire (s : State) : State :=
  let s1 := { s with secCounter := (s.secCounter + 1) % 256 }
  if MINUTE = s1.secCounter then
    { s1 with
      cpmCounter := s1.cpmCurrentCounter
      cpmCurrentCounter := 0
      secCounter := 0 }
  else s1

/-! ## Decimal formatter -/

/-- One pass of the `for` body of `intToChars`: the pair is `(temp, charArray)`. -/
def intToCharsBody (st : Nat × List Nat) (i : Nat) : Nat × List Nat :=
  (st.1 / 10,
   st.2.set (MAX_NUMBER_DIGITS - 1 - i) (((st.1 % 10) % 256 + ASCII_DIGIT_START) % 256))

/-- `intToChars(&input, charArray)`: the loop runs for `i = 0 .. MAX_NUMBER_DIGITS - 1`. -/
def intToChars (input : Nat) (charArray : List Nat) : List Nat :=
  ((List.range MAX_NUMBER_DIGITS).foldl intToCharsBody (input, charArray)).2

/-- Reference reading of a digit string, most-significant digit first, base 10. -/
def parseDecimal (cs : List Nat) : Nat :=
  cs.foldl (fun acc c => acc * 10 + (c - ASCII_DIGIT_START)) 0

/-! ## Software UART -/

/-- One Timer_A compare interrupt, followed by a sample of the transmit pin. -/
def timerTick (s : State) : State :=
  let s1 := ISR_Timer_A_expire s
  { s1 with pinTrace := s1.pinTrace ++ [txPin s1] }

/-- The busy wait `while (TACCTL0 & CCIE);`.  The only code that clears `CCIE`
is the timer handler, so every further turn of the loop stands for one timer
interrupt; `none` when the fuel is used up before the bit is clear. -/
def waitCCIE : Nat → State → Option State
  | 0, s => if s.TACCTL0 &&& CCIE ≠ 0 then none else some s
  | fuel + 1, s =>
    if s.TACCTL0 &&& CCIE ≠ 0 then waitCCIE fuel (timerTick s) else some s

/-- The straight-line middle of `TimerA_UART_tx`: load the frame and arm the timer. -/
def txLoad (s : State) (byte : Nat) : State :=
  let s1 := { s with TACCR0 := UART_TBIT }
  let s2 := { s1 with txData := byte }
  let s3 := { s2 with txData := s2.txData ||| 0x100 }
  let s4 := { s3 with txData := (s3.txData <<< 1) % 65536 }
  let s5 := { s4 with TAR := 0 }
  { s5 with TACCTL0 := s5.TACCTL0 ||| CCIE }

/-- `TimerA_UART_tx(byte)`: wait, load and arm, wait again (`CCTL0` is the
device header's other name of `TACCTL0`). -/
def TimerA_UART_tx (fuel : Nat) (s : State) (byte : Nat) : Option State :=
  (waitCCIE fuel { s with txCalls := s.txCalls ++ [byte] }).bind fun s1 =>
    waitCCIE fuel (txLoad s1 byte)

/-- `TimerA_UART_print(string)`: the list is the memory from `string` on; `none`
when the walk leaves the object without meeting a NUL. -/
def TimerA_UART_print (fuel : Nat) : State → List Nat → Option State
  | _, [] => none
  | s, c :: rest =>
    if c ≠ 0 then (TimerA_UART_tx fuel s c).bind fun s1 => TimerA_UART_print fuel s1 rest
    else some s

/-- The bytes of a C string literal, without the terminating NUL. -/
def cbytes (lit : String) : List Nat :=
  lit.toList.map Char.toNat

/-- A C string literal as it lies in memory. -/
def cstr (lit : String) : List Nat :=
  cbytes lit ++ [0]

/-! ## `main` -/

/-- Static storage at reset: the initialisers of the globals and of `txBitCnt`
(`txData` has none and is zero); the registers keep what `r` holds. -/
def powerOn (r : State) : State :=
  { r with txData := 0, cpmCounter := 0, cpmCurrentCounter := 0, secCounter := 0, txBitCnt := 10 }

/-- `initPorts`, on the registers kept in the state. -/
def initPorts (s : State) : State :=
  let s1 := { s with P1DIR := s.P1DIR ||| (RED_LED ||| GREEN_LED ||| UART_TX_PIN) }
  let s2 := { s1 with P1OUT := s1.P1OUT &&& ((0xFF ^^^ RED_LED) &&& (0xFF ^^^ GREEN_LED)) }
  let s3 := { s2 with P1DIR := s2.P1DIR &&& (0xFF ^^^ SWITCH) }
  let s4 := { s3 with P1DIR := s3.P1DIR &&& (0xFF ^^^ GM_INPUT) }
  let s5 := { s4 with P1OUT := s4.P1OUT ||| (SWITCH ||| GM_INPUT) }
  let s6 := { s5 with P1OUT := s5.P1OUT ||| UART_TX_PIN }
  { s6 with P1IFG := 0 }

/-- `TimerA_UART_init`: the compare interrupt is disabled. -/
def TimerA_UART_init (s : State) : State :=
  { s with TACCTL0 := s.TACCTL0 &&& (0xFFFF ^^^ CCIE) }

/-- The part of `main` before `while(1)`, for a device whose calibration
constant is present (otherwise `initDCO` never returns): the state in which the
loop is entered and interrupts are enabled. -/
def mainInit (r : State) : State :=
  let s1 := TimerA_UART_init (initPorts (powerOn r))
  let s2 := { s1 with P1OUT := s1.P1OUT ||| GREEN_LED }
  { s2 with
    uSvPerHour := 0
    uSvPerHourAscii := [0, 0, 0, 0, 0, 0]
    cpmAscii := [0, 0, 0, 0, 0, 0]
    counterAscii := [0, 0, 0, 0, 0, 0]
    secondsAscii := [0, 0, 0, 0, 0, 0]
    has_send_data := 0
    txCalls := []
    pinTrace := [] }

/-- One pass of the body of `while(1)` in `main`. -/
def mainLoopBody (fuel : Nat) (s : State) : Option State :=
  let s1 := if s.secCounter % 2 ≠ 0 then { s with has_send_data := 0 } else s
  if s1.secCounter % 2 = 0 ∧ s1.has_send_data = 0 then
    let s2 := { s1 with uSvPerHour := (s1.cpmCounter * TUBE_FACTOR) % 65536 }
    let s3 := { s2 with cpmAscii := intToChars s2.cpmCounter s2.cpmAscii }
    let s4 := { s3 with counterAscii := intToChars s3.cpmCurrentCounter s3.counterAscii }
    let s5 := { s4 with uSvPerHourAscii := intToChars s4.uSvPerHour s4.uSvPerHourAscii }
    let secIn := s5.secCounter
    let s6 := { s5 with secondsAscii := intToChars secIn s5.secondsAscii }
    (TimerA_UART_print fuel s6 (cstr "RELATIVE TIME = ")).bind fun s7 =>
    (TimerA_UART_print fuel s7 s7.secondsAscii).bind fun s8 =>
    (TimerA_UART_print fuel s8
      (cstr " seconds, GEIGER MULLER PROTOTYTPE REPORTING CURRENT COUNTER = ")).bind fun s9 =>
    (TimerA_UART_print fuel s9 s9.counterAscii).bind fun s10 =>
    (TimerA_UART_print fuel s10 (cstr ", CPM = ")).bind fun s11 =>
    (TimerA_UART_print fuel s11 s11.cpmAscii).bind fun s12 =>
    (TimerA_UART_print fuel s12 (cstr ", uSv/h = ")).bind fun s13 =>
    (TimerA_UART_print fuel s13 s13.uSvPerHourAscii).bind fun s14 =>
    (TimerA_UART_print fuel s14 (cstr "\n\r")).bind fun s15 =>
    some { s15 with has_send_data := 1 }
  else some s1

/-! ## Runs -/

/-- What can happen once interrupts are enabled, each taken as one atomic step:
a PORT1 interrupt that finds `ifg` in `P1IFG`, a watchdog interval interrupt,
or one pass of the main loop (with the fuel of its busy waits). -/
inductive Event where
  | port (ifg : Nat)
  | wdt
  | loop (fuel : Nat)
deriving DecidableEq, Repr

/-- One event. -/
def step (s : State) : Event → Option State
  | Event.port ifg => some (ISR_portChange { s with P1IFG := ifg })
  | Event.wdt => some (ISR_WDT_expire s)
  | Event.loop fuel => mainLoopBody fuel s

/-- A sequence of events, oldest first. -/
def run : State → List Event → Option State
  | s, [] => some s
  | s, e :: es => (step s e).bind fun s1 => run s1 es

/-- Number of watchdog ticks in a trace. -/
def ticks : List Event → Nat
  | [] => 0
  | Event.wdt :: es => ticks es + 1
  | _ :: es => ticks es

/-- Whether an event is a run of the pulse handler with the GM flag set. -/
def isPulse : Event → Bool
  | Event.port ifg => decide (ifg &&& GM_INPUT ≠ 0)
  | _ => false

/-- Number of pulse-handler runs with the GM flag set in a trace. -/
def pulses (es : List Event) : Nat :=
  es.countP isPulse

/-- Number of pulses of a trace that come after at least `a` and fewer than `b`
ticks, the trace starting after `t` ticks. -/
def pulsesBetween (a b : Nat) : Nat → List Event → Nat
  | _, [] => 0
  | t, Event.wdt :: es => pulsesBetween a b (t + 1) es
  | t, e :: es =>
    (if isPulse e ∧ a ≤ t ∧ t < b then 1 else 0) + pulsesBetween a b t es

/-- The 5-digit field `intToChars` produces for `v` (in a buffer as in `main`). -/
def fmt (v : Nat) : List Nat :=
  (intToChars v [0, 0, 0, 0, 0, 0]).take MAX_NUMBER_DIGITS

/-- Levels on the transmit pin after each of the next `n` timer interrupts. -/
def pinLevels : Nat → State → List Nat
  | 0, _ => []
  | n + 1, s => txPin (ISR_Timer_A_expire s) :: pinLevels n (ISR_Timer_A_expire s)

/-- The part of the state the software UART never writes: `s1` agrees with `s`
on the counters, on the port flags and directions and on the locals of `main`. -/
structure Frame (s s1 : State) : Prop where
  cpmCounter : s1.cpmCounter = s.cpmCounter
  cpmCurrentCounter : s1.cpmCurrentCounter = s.cpmCurrentCounter
  secCounter : s1.secCounter = s.secCounter
  P1DIR : s1.P1DIR = s.P1DIR
  P1IFG : s1.P1IFG = s.P1IFG
  uSvPerHour : s1.uSvPerHour = s.uSvPerHour
  uSvPerHourAscii : s1.uSvPerHourAscii = s.uSvPerHourAscii
  cpmAscii : s1.cpmAscii = s.cpmAscii
  counterAscii : s1.counterAscii = s.counterAscii
  secondsAscii : s1.secondsAscii = s.secondsAscii
  has_send_data : s1.has_send_data = s.has_send_data

/-- The transmitter is idle: compare interrupt disabled, bit counter reloaded. -/
def Idle (s : State) : Prop :=
  s.TACCTL0 &&& CCIE = 0 ∧ s.txBitCnt = 10

/-- A buffer as `main` declares them: six cells, the last one NUL. -/
def IsField (buf : List Nat) : Prop :=
  buf.length = 6 ∧ buf[5]? = some 0

/-- The report line `main` prints for seconds `sec`, current count `cur`,
committed count `cpm` and dose rate `dose`, as a byte sequence. -/
def reportLine (sec cur cpm dose : Nat) : List Nat :=
  cbytes "RELATIVE TIME = " ++ fmt sec ++
  cbytes " seconds, GEIGER MULLER PROTOTYTPE REPORTING CURRENT COUNTER = " ++ fmt cur ++
  cbytes ", CPM = " ++ fmt cpm ++ cbytes ", uSv/h = " ++ fmt dose ++ cbytes "\n\r"

/-- Number of pulses of a trace in the window of index `w`: after at least
`60 * w` ticks and before the tick number `60 * w + 60`. -/
def windowCount (w : Nat) (es : List Event) : Nat :=
  pulsesBetween (60 * w) (60 * w + 60) 0 es

/-- What holds at the start of every pass of the main loop: the transmitter is
idle and the four buffers are as declared. -/
def LoopInv (s : State) : Prop :=
  Idle s ∧ IsField s.secondsAscii ∧ IsField s.counterAscii ∧ IsField s.cpmAscii ∧
    IsField s.uSvPerHourAscii

/-- A register file with every cell zero. -/
def zeroRegs : State :=
  { txData := 0, cpmCounter := 0, cpmCurrentCounter := 0, secCounter := 0, txBitCnt := 0,
    P1DIR := 0, P1OUT := 0, P1IFG := 0, TACCTL0 := 0, TACCR0 := 0, TAR := 0,
    uSvPerHour := 0, uSvPerHourAscii := [], cpmAscii := [], counterAscii := [],
    secondsAscii := [], has_send_data := 0, txCalls := [], pinTrace := [] }

/-- The state in which `main` enters its loop on a device whose registers read zero at reset. -/
def bootState : State :=
  mainInit zeroRegs

/-- The ten levels of one frame of byte `b`: start bit, data bits least-significant
first, stop bit. -/
def frameLevels (b : Nat) : List Nat :=
  [0, b % 2, b / 2 % 2, b / 4 % 2, b / 8 % 2, b / 16 % 2, b / 32 % 2, b / 64 % 2, b / 128 % 2, 1]

/-- The pin samples of one complete frame: the ten levels, then the sample of the
interrupt that finds the bit counter at zero and leaves the line at stop level. -/
def frameTrace (b : Nat) : List Nat :=
  frameLevels b ++ [1]

/-- The pin samples of the frames of the bytes `cs`, one frame after the other. -/
def framesOf : List Nat → List Nat
  | [] => []
  | c :: cs => frameTrace c ++ framesOf cs

/-- Steps of the transmitter and of what can interrupt it: a whole call of
`TimerA_UART_tx`; the part of such a call up to the arming of the timer (it gets
that far only when no frame is in flight); a Timer_A compare interrupt (requested
by the hardware only while `CCIE` is set); a PORT1 interrupt; a watchdog tick. -/
inductive UartEvent where
  | call (fuel byte : Nat)
  | arm (byte : Nat)
  | timer
  | port (ifg : Nat)
  | wdt
deriving DecidableEq, Repr

/-- One step of the transmitter or of an interrupt. -/
def uartStep (s : State) : UartEvent → Option State
  | UartEvent.call fuel byte => TimerA_UART_tx fuel s byte
  | UartEvent.arm byte =>
    if s.TACCTL0 &&& CCIE ≠ 0 then none
    else some (txLoad { s with txCalls := s.txCalls ++ [byte] } byte)
  | UartEvent.timer => if s.TACCTL0 &&& CCIE ≠ 0 then some (timerTick s) else none
  | UartEvent.port ifg => some (ISR_portChange { s with P1IFG := ifg })
  | UartEvent.wdt => some (ISR_WDT_expire s)

/-- A sequence of transmitter steps, oldest first. -/
def uartRun : State → List UartEvent → Option State
  | s, [] => some s
  | s, e :: es => (uartStep s e).bind fun s1 => uartRun s1 es

/-- What the transmitter keeps true: when idle the line is high and the bit
counter is 10; while a frame is in flight the last bit still to be sent is the
stop bit, and once the counter is 0 the line is high. -/
def UartInv (s : State) : Prop :=
  (s.TACCTL0 &&& CCIE = 0 → txPin s = 1 ∧ s.txBitCnt = 10) ∧
  (s.TACCTL0 &&& CCIE ≠ 0 →
    (s.txBitCnt = 0 → txPin s = 1) ∧
    (0 < s.txBitCnt → s.txData / 2 ^ (s.txBitCnt - 1) % 2 = 1))

/-- A trace made of one-second phases: the events of each phase, then the
watchdog tick that ends it. -/
def phaseTrace : List (List Event) → List Event
  | [] => []
  | p :: ps => p ++ Event.wdt :: phaseTrace ps

/-- For each phase of such a run, oldest first: the value `secCounter` has during
the phase and the bytes handed to `TimerA_UART_tx` during it. -/
def phaseOutputs : State → List (List Event) → Option (List (Nat × List Nat))
  | _, [] => some []
  | s, p :: ps =>
    (run s p).bind fun s1 =>
      (phaseOutputs (ISR_WDT_expire s1) ps).map fun outs =>
        (s.secCounter, s1.txCalls.drop s.txCalls.length) :: outs

/-- A phase in which the main loop gets its turn: no tick inside, at least one
pass of the loop, every pass with the fuel for a frame. -/
def GoodPhase (p : List Event) : Prop :=
  ticks p = 0 ∧ (∃ f, Event.loop f ∈ p) ∧ ∀ f, Event.loop f ∈ p → 10 < f

/-! ## Decimal formatter: theorems -/

theorem intToChars_eq (v : Nat) (a b c d e : Nat) (rest : List Nat) :
    intToChars v (a :: b :: c :: d :: e :: rest) =
      (v / 10000 % 10 + 48) :: (v / 1000 % 10 + 48) :: (v / 100 % 10 + 48) ::
        (v / 10 % 10 + 48) :: (v % 10 + 48) :: rest := by
  simp [intToChars, intToCharsBody, List.range, List.range.loop, MAX_NUMBER_DIGITS,
    ASCII_DIGIT_START, Nat.div_div_eq_div_mul]
  omega

theorem exists_five_cons (l : List Nat) (h : 5 ≤ l.length) :
    ∃ a b c d e rest, l = a :: b :: c :: d :: e :: rest := by
  match l, h with
  | a :: b :: c :: d :: e :: rest, _ => exact ⟨a, b, c, d, e, rest, rfl⟩

/-- C2: for every uint16 `v`, `intToChars` overwrites exactly the first five
cells of the buffer (length and the cells from index 5 on are kept), and reading
those five characters as a decimal number, most-significant digit first, gives
`v` back. -/
theorem intToChars_roundtrip (v : Nat) (hv : v < 65536) (charArray : List Nat)
    (hlen : MAX_NUMBER_DIGITS ≤ charArray.length) :
    (intToChars v charArray).length = charArray.length ∧
    (intToChars v charArray).drop MAX_NUMBER_DIGITS = charArray.drop MAX_NUMBER_DIGITS ∧
    ((intToChars v charArray).take MAX_NUMBER_DIGITS).length = 5 ∧
    parseDecimal ((intToChars v charArray).take MAX_NUMBER_DIGITS) = v := by
  obtain ⟨a, b, c, d, e, rest, rfl⟩ := exists_five_cons charArray hlen
  rw [intToChars_eq]
  refine ⟨by simp, by simp [MAX_NUMBER_DIGITS], by simp [MAX_NUMBER_DIGITS], ?_⟩
  simp [MAX_NUMBER_DIGITS, parseDecimal, ASCII_DIGIT_START]
  omega

theorem intToChars_roundtrip_witness :
    (intToChars 65535 [0, 0, 0, 0, 0, 0]).length = [0, 0, 0, 0, 0, 0].length ∧
    (intToChars 65535 [0, 0, 0, 0, 0, 0]).drop MAX_NUMBER_DIGITS
      = [0, 0, 0, 0, 0, 0].drop MAX_NUMBER_DIGITS ∧
    ((intToChars 65535 [0, 0, 0, 0, 0, 0]).take MAX_NUMBER_DIGITS).length = 5 ∧
    parseDecimal ((intToChars 65535 [0, 0, 0, 0, 0, 0]).take MAX_NUMBER_DIGITS) = 65535 :=
  intToChars_roundtrip 65535 (by decide) [0, 0, 0, 0, 0, 0] (by decide)

/-- C3: for every uint16 `v` and every position `i` in `0..4`, `intToChars`
stores `48 + (v / 10 ^ (4 - i)) % 10` at `charArray[i]`, which is an ASCII digit
`'0'..'9'`; so the most-significant digit comes first and small values are
zero-padded: 7 gives "00007" and 65535 gives "65535". -/
theorem intToChars_digits :
    (∀ (v : Nat) (charArray : List Nat) (i : Nat), v < 65536 →
      MAX_NUMBER_DIGITS ≤ charArray.length → i < MAX_NUMBER_DIGITS →
      (intToChars v charArray)[i]? = some (48 + (v / 10 ^ (4 - i)) % 10) ∧
      48 ≤ 48 + (v / 10 ^ (4 - i)) % 10 ∧ 48 + (v / 10 ^ (4 - i)) % 10 ≤ 57) ∧
    (intToChars 7 [0, 0, 0, 0, 0, 0]).take 5 = cbytes "00007" ∧
    (intToChars 65535 [0, 0, 0, 0, 0, 0]).take 5 = cbytes "65535" := by
  refine ⟨?_, by decide, by decide⟩
  intro v charArray i _ hlen hi
  obtain ⟨a, b, c, d, e, rest, rfl⟩ := exists_five_cons charArray hlen
  rw [intToChars_eq]
  have h10 : (v / 10 ^ (4 - i)) % 10 < 10 := Nat.mod_lt _ (by decide)
  refine ⟨?_, by omega, by omega⟩
  simp only [MAX_NUMBER_DIGITS] at hi
  interval_cases i <;> simp <;> omega

theorem intToChars_digits_witness :
    (intToChars 7 [0, 0, 0, 0, 0, 0])[4]? = some (48 + (7 / 10 ^ (4 - 4)) % 10) ∧
    48 ≤ 48 + (7 / 10 ^ (4 - 4)) % 10 ∧ 48 + (7 / 10 ^ (4 - 4)) % 10 ≤ 57 :=
  intToChars_digits.1 7 [0, 0, 0, 0, 0, 0] 4 (by decide) (by decide) (by decide)

/-! ## Interrupt handlers: theorems -/

/-- C4: from a state with `secCounter < 60`, one run of `ISR_WDT_expire` at
`secCounter = 59` copies `cpmCurrentCounter` into `cpmCounter`, clears
`cpmCurrentCounter` and `secCounter` and changes nothing else; at any
`secCounter < 59` it only adds one to `secCounter`. -/
theorem ISR_WDT_expire_spec (s : State) (h : s.secCounter < 60) :
    (s.secCounter = 59 →
      ISR_WDT_expire s =
        { s with cpmCounter := s.cpmCurrentCounter, cpmCurrentCounter := 0, secCounter := 0 }) ∧
    (s.secCounter < 59 →
      ISR_WDT_expire s = { s with secCounter := s.secCounter + 1 } ∧
      (ISR_WDT_expire s).cpmCurrentCounter = s.cpmCurrentCounter ∧
      (ISR_WDT_expire s).cpmCounter = s.cpmCounter) := by
  constructor
  · intro h59
    simp [ISR_WDT_expire, MINUTE, h59]
  · intro hlt
    have h1 : (s.secCounter + 1) % 256 = s.secCounter + 1 := Nat.mod_eq_of_lt (by omega)
    have h2 : ¬ (60 = s.secCounter + 1) := by omega
    simp [ISR_WDT_expire, MINUTE, h1, h2]

/-- C7: a run of `ISR_portChange` that finds the GM flag set adds one to
`cpmCurrentCounter` modulo 65536 (65535 becomes 0) and keeps `cpmCounter` and
`secCounter`; a run that finds only the button flag set keeps all three. -/
theorem ISR_portChange_counters (s : State) :
    (s.P1IFG &&& GM_INPUT ≠ 0 →
      (ISR_portChange s).cpmCurrentCounter = (s.cpmCurrentCounter + 1) % 65536 ∧
      (s.cpmCurrentCounter = 65535 → (ISR_portChange s).cpmCurrentCounter = 0) ∧
      (ISR_portChange s).cpmCounter = s.cpmCounter ∧
      (ISR_portChange s).secCounter = s.secCounter) ∧
    (s.P1IFG &&& GM_INPUT = 0 → s.P1IFG &&& SWITCH ≠ 0 →
      (ISR_portChange s).cpmCurrentCounter = s.cpmCurrentCounter ∧
      (ISR_portChange s).cpmCounter = s.cpmCounter ∧
      (ISR_portChange s).secCounter = s.secCounter) := by
  constructor
  · intro hgm
    refine ⟨?_, ?_, ?_, ?_⟩
    · simp only [ISR_portChange, hgm]; split_ifs <;> simp
    · intro h; simp only [ISR_portChange, hgm]; split_ifs <;> simp [h]
    · simp only [ISR_portChange, hgm]; split_ifs <;> simp
    · simp only [ISR_portChange, hgm]; split_ifs <;> simp
  · intro hgm hsw
    simp [ISR_portChange, hgm, hsw]

theorem ISR_WDT_expire_spec_witness :
    ISR_WDT_expire { bootState with secCounter := 59, cpmCurrentCounter := 1234 } =
      { bootState with cpmCounter := 1234, cpmCurrentCounter := 0, secCounter := 0 } :=
  (ISR_WDT_expire_spec { bootState with secCounter := 59, cpmCurrentCounter := 1234 }
    (by decide)).1 rfl

theorem ISR_portChange_counters_witness :
    (ISR_portChange { bootState with P1IFG := 0x10, cpmCurrentCounter := 65535 }).cpmCurrentCounter
      = 0 :=
  ((ISR_portChange_counters { bootState with P1IFG := 0x10, cpmCurrentCounter := 65535 }).1
    (by decide)).2.1 rfl

/-! ## Software UART: theorems -/

theorem or_and_self_mask (x m : Nat) : (x ||| m) &&& m = m := by
  apply Nat.eq_of_testBit_eq
  intro i
  simp only [Nat.testBit_and, Nat.testBit_or]
  cases x.testBit i <;> cases m.testBit i <;> rfl

theorem and_clear_and (x a b : Nat) (h : a &&& b = 0) : (x &&& a) &&& b = 0 := by
  rw [Nat.and_assoc, h, Nat.and_zero]

theorem txPin_ISR_Timer_A_expire (s : State) (h : s.txBitCnt ≠ 0) :
    txPin (ISR_Timer_A_expire s) = s.txData % 2 := by
  have hb : s.txData % 2 = 0 ∨ s.txData % 2 = 1 := by omega
  rcases hb with hb | hb
  · have h0 : s.P1OUT &&& 253 &&& 2 = 0 := and_clear_and _ _ _ (by decide)
    simp [ISR_Timer_A_expire, h, hb, txPin, UART_TX_PIN, BIT1, h0]
  · simp [ISR_Timer_A_expire, h, hb, txPin, UART_TX_PIN, BIT1, or_and_self_mask]

theorem txData_ISR_Timer_A_expire (s : State) (h : s.txBitCnt ≠ 0) :
    (ISR_Timer_A_expire s).txData = s.txData / 2 ∧
    (ISR_Timer_A_expire s).txBitCnt = s.txBitCnt - 1 := by
  simp only [ISR_Timer_A_expire, if_neg h]
  split_ifs <;> simp [Nat.shiftRight_eq_div_pow]

theorem pinLevels_eq_bits (n : Nat) : ∀ s : State, n ≤ s.txBitCnt →
    pinLevels n s = (List.range n).map fun i => s.txData / 2 ^ i % 2 := by
  induction n with
  | zero => intro s _; rfl
  | succ n ih =>
    intro s hn
    have h0 : s.txBitCnt ≠ 0 := by omega
    obtain ⟨hd, hc⟩ := txData_ISR_Timer_A_expire s h0
    rw [pinLevels, txPin_ISR_Timer_A_expire s h0, ih _ (by omega), hd, List.range_succ_eq_map]
    simp [Nat.div_div_eq_div_mul, pow_succ, Nat.mul_comm]

theorem txLoad_txData (s : State) (b : Nat) (hb : b < 256) :
    (txLoad s b).txData = 2 * b + 512 ∧ (txLoad s b).txBitCnt = s.txBitCnt := by
  have h : b ||| 256 = 256 + b := by
    have := Nat.mul_add_lt_is_or (i := 8) (b := b) (by simpa using hb) 1
    rw [Nat.lor_comm]
    simpa using this.symm
  simp [txLoad, h, Nat.shiftLeft_eq]
  omega

/-- C8: for every byte `b`, after `TimerA_UART_tx` has loaded its frame with the
bit counter at 10, the next ten runs of `ISR_Timer_A_expire` put on the transmit
pin: low (start), bits 0 to 7 of `b` (least-significant first), high (stop); for
`b = 0x41` that is low, 1,0,0,0,0,0,1,0, high. -/
theorem uart_frame_levels (s : State) (b : Nat) (hb : b < 256) (hidle : s.txBitCnt = 10) :
    pinLevels 10 (txLoad s b) =
      [0, b % 2, b / 2 % 2, b / 4 % 2, b / 8 % 2, b / 16 % 2, b / 32 % 2, b / 64 % 2,
        b / 128 % 2, 1] ∧
    (b = 0x41 → pinLevels 10 (txLoad s b) = [0, 1, 0, 0, 0, 0, 0, 1, 0, 1]) := by
  obtain ⟨hd, hc⟩ := txLoad_txData s b hb
  have key : pinLevels 10 (txLoad s b) =
      [0, b % 2, b / 2 % 2, b / 4 % 2, b / 8 % 2, b / 16 % 2, b / 32 % 2, b / 64 % 2,
        b / 128 % 2, 1] := by
    rw [pinLevels_eq_bits 10 _ (by omega), hd]
    simp [List.range, List.range.loop]
    omega
  refine ⟨key, ?_⟩
  intro h41
  rw [key, h41]

theorem uart_frame_levels_witness :
    pinLevels 10 (txLoad bootState 0x41) = [0, 1, 0, 0, 0, 0, 0, 1, 0, 1] :=
  (uart_frame_levels bootState 0x41 (by decide) (by decide)).2 rfl

theorem Frame.refl (s : State) : Frame s s :=
  ⟨rfl, rfl, rfl, rfl, rfl, rfl, rfl, rfl, rfl, rfl, rfl⟩

theorem Frame.trans {a b c : State} (h1 : Frame a b) (h2 : Frame b c) : Frame a c :=
  ⟨h2.1.trans h1.1, h2.2.trans h1.2, h2.3.trans h1.3, h2.4.trans h1.4, h2.5.trans h1.5,
    h2.6.trans h1.6, h2.7.trans h1.7, h2.8.trans h1.8, h2.9.trans h1.9, h2.10.trans h1.10,
    h2.11.trans h1.11⟩

theorem timerTick_frame (s : State) :
    Frame s (timerTick s) ∧ (timerTick s).txCalls = s.txCalls := by
  simp only [timerTick, ISR_Timer_A_expire]
  split_ifs <;> exact ⟨⟨rfl, rfl, rfl, rfl, rfl, rfl, rfl, rfl, rfl, rfl, rfl⟩, rfl⟩

theorem timerTick_zero (s : State) (h : s.txBitCnt = 0) :
    (timerTick s).TACCTL0 &&& CCIE = 0 ∧ (timerTick s).txBitCnt = 10 := by
  constructor
  · simp only [timerTick, ISR_Timer_A_expire, if_pos h]
    exact and_clear_and _ _ _ (by decide)
  · simp [timerTick, ISR_Timer_A_expire, h]

theorem timerTick_pos (s : State) (h : s.txBitCnt ≠ 0) :
    (timerTick s).TACCTL0 = s.TACCTL0 ∧ (timerTick s).txBitCnt = s.txBitCnt - 1 := by
  simp only [timerTick, ISR_Timer_A_expire, if_neg h]
  split_ifs <;> exact ⟨rfl, rfl⟩

theorem waitCCIE_clear (fuel : Nat) (s : State) (h : s.TACCTL0 &&& CCIE = 0) :
    waitCCIE fuel s = some s := by
  cases fuel <;> simp [waitCCIE, h]

theorem waitCCIE_set (fuel : Nat) : ∀ s : State, s.TACCTL0 &&& CCIE ≠ 0 → s.txBitCnt < fuel →
    ∃ s1, waitCCIE fuel s = some s1 ∧ Idle s1 ∧ Frame s s1 ∧ s1.txCalls = s.txCalls := by
  induction fuel with
  | zero => intro s _ h; omega
  | succ fuel ih =>
    intro s hset hlt
    obtain ⟨hf, hc⟩ := timerTick_frame s
    rw [waitCCIE, if_pos hset]
    by_cases h0 : s.txBitCnt = 0
    · obtain ⟨h1, h2⟩ := timerTick_zero s h0
      exact ⟨timerTick s, waitCCIE_clear _ _ h1, ⟨h1, h2⟩, hf, hc⟩
    · obtain ⟨h1, h2⟩ := timerTick_pos s h0
      obtain ⟨s1, e1, i1, f1, c1⟩ := ih (timerTick s) (by rw [h1]; exact hset) (by omega)
      exact ⟨s1, e1, i1, hf.trans f1, c1.trans hc⟩

theorem waitCCIE_some (fuel : Nat) (s : State) (hf : 10 < fuel) (hlt : s.txBitCnt < fuel) :
    ∃ s1, waitCCIE fuel s = some s1 ∧ s1.TACCTL0 &&& CCIE = 0 ∧ s1.txBitCnt < fuel ∧
      (s.TACCTL0 &&& CCIE ≠ 0 → s1.txBitCnt = 10) ∧ Frame s s1 ∧ s1.txCalls = s.txCalls := by
  by_cases h : s.TACCTL0 &&& CCIE = 0
  · exact ⟨s, waitCCIE_clear _ _ h, h, hlt, fun h1 => absurd h h1, Frame.refl s, rfl⟩
  · obtain ⟨s1, e1, i1, f1, c1⟩ := waitCCIE_set fuel s h hlt
    exact ⟨s1, e1, i1.1, by rw [i1.2]; exact hf, fun _ => i1.2, f1, c1⟩

theorem txLoad_frame (s : State) (b : Nat) :
    Frame s (txLoad s b) ∧ (txLoad s b).txCalls = s.txCalls ∧
    (txLoad s b).txBitCnt = s.txBitCnt ∧ (txLoad s b).TACCTL0 &&& CCIE ≠ 0 := by
  refine ⟨⟨rfl, rfl, rfl, rfl, rfl, rfl, rfl, rfl, rfl, rfl, rfl⟩, rfl, rfl, ?_⟩
  simp only [txLoad, or_and_self_mask]
  decide

theorem TimerA_UART_tx_spec (fuel : Nat) (s : State) (b : Nat) (hf : 10 < fuel)
    (hlt : s.txBitCnt < fuel) :
    ∃ s1, TimerA_UART_tx fuel s b = some s1 ∧ Idle s1 ∧ Frame s s1 ∧
      s1.txCalls = s.txCalls ++ [b] := by
  obtain ⟨s1, e1, _, l1, _, f1, c1⟩ :=
    waitCCIE_some fuel { s with txCalls := s.txCalls ++ [b] } hf hlt
  obtain ⟨fl, cl, bl, sl⟩ := txLoad_frame s1 b
  obtain ⟨s2, e2, i2, f2, c2⟩ := waitCCIE_set fuel (txLoad s1 b) sl (by rw [bl]; exact l1)
  refine ⟨s2, ?_, i2, ?_, ?_⟩
  · simp [TimerA_UART_tx, e1, e2]
  · exact Frame.trans (Frame.trans ⟨f1.1, f1.2, f1.3, f1.4, f1.5, f1.6, f1.7, f1.8, f1.9,
      f1.10, f1.11⟩ fl) f2
  · rw [c2, cl, c1]

theorem TimerA_UART_print_spec (fuel : Nat) (hf : 10 < fuel) (rest : List Nat) :
    ∀ (l : List Nat) (s : State), (∀ c ∈ l, c ≠ 0) → s.txBitCnt < fuel →
      ∃ s1, TimerA_UART_print fuel s (l ++ 0 :: rest) = some s1 ∧ s1.txBitCnt < fuel ∧
        (Idle s → Idle s1) ∧ Frame s s1 ∧ s1.txCalls = s.txCalls ++ l := by
  intro l
  induction l with
  | nil =>
    intro s _ hlt
    exact ⟨s, by simp [TimerA_UART_print], hlt, id, Frame.refl s, by simp⟩
  | cons c l ih =>
    intro s hnz hlt
    have hc : c ≠ 0 := hnz c (List.mem_cons_self _ _)
    obtain ⟨s1, e1, i1, f1, c1⟩ := TimerA_UART_tx_spec fuel s c hf hlt
    obtain ⟨s2, e2, l2, i2, f2, c2⟩ :=
      ih s1 (fun x hx => hnz x (List.mem_cons_of_mem _ hx)) (by rw [i1.2]; exact hf)
    refine ⟨s2, ?_, l2, fun _ => i2 i1, f1.trans f2, ?_⟩
    · simp [TimerA_UART_print, hc, e1, e2]
    · rw [c2, c1]; simp

/-! ## Reporting loop: theorems -/

theorem fmt_eq (v : Nat) :
    fmt v = [v / 10000 % 10 + 48, v / 1000 % 10 + 48, v / 100 % 10 + 48, v / 10 % 10 + 48,
      v % 10 + 48] := by
  simp [fmt, intToChars_eq, MAX_NUMBER_DIGITS]

theorem fmt_ne_zero (v : Nat) : ∀ c ∈ fmt v, c ≠ 0 := by
  intro c hc
  rw [fmt_eq] at hc
  simp at hc
  omega

theorem isField_cases (buf : List Nat) (h : IsField buf) :
    ∃ a b c d e, buf = [a, b, c, d, e, 0] := by
  obtain ⟨hlen, h5⟩ := h
  match buf, hlen, h5 with
  | [a, b, c, d, e, f], _, h5 =>
    simp at h5
    exact ⟨a, b, c, d, e, by rw [h5]⟩

theorem intToChars_field (v : Nat) (buf : List Nat) (h : IsField buf) :
    intToChars v buf = fmt v ++ 0 :: [] ∧ IsField (intToChars v buf) := by
  obtain ⟨a, b, c, d, e, rfl⟩ := isField_cases buf h
  rw [fmt_eq, intToChars_eq]
  exact ⟨rfl, rfl, rfl⟩

theorem cstr_eq (lit : String) : cstr lit = cbytes lit ++ 0 :: [] := rfl

theorem mainLoopBody_idle (fuel : Nat) (s : State)
    (h : ¬ (s.secCounter % 2 = 0 ∧ s.has_send_data = 0)) :
    mainLoopBody fuel s =
      some (if s.secCounter % 2 ≠ 0 then { s with has_send_data := 0 } else s) := by
  by_cases hodd : s.secCounter % 2 = 0
  · have h1 : ¬ s.has_send_data = 0 := fun h0 => h ⟨hodd, h0⟩
    simp [mainLoopBody, hodd, h1]
  · simp [mainLoopBody, hodd]

theorem mainLoopBody_report (fuel : Nat) (s : State) (hf : 10 < fuel)
    (hlt : s.txBitCnt < fuel) (heven : s.secCounter % 2 = 0) (hflag : s.has_send_data = 0)
    (h1 : IsField s.secondsAscii) (h2 : IsField s.counterAscii) (h3 : IsField s.cpmAscii)
    (h4 : IsField s.uSvPerHourAscii) :
    ∃ s1, mainLoopBody fuel s = some s1 ∧
      s1.txCalls = s.txCalls ++ reportLine s.secCounter s.cpmCurrentCounter s.cpmCounter
        (s.cpmCounter * TUBE_FACTOR % 65536) ∧
      s1.uSvPerHour = s.cpmCounter * TUBE_FACTOR % 65536 ∧
      s1.has_send_data = 1 ∧
      s1.cpmCounter = s.cpmCounter ∧ s1.cpmCurrentCounter = s.cpmCurrentCounter ∧
      s1.secCounter = s.secCounter ∧
      (IsField s1.secondsAscii ∧ IsField s1.counterAscii ∧ IsField s1.cpmAscii ∧
        IsField s1.uSvPerHourAscii) ∧
      (Idle s → Idle s1) ∧
      s1.uSvPerHourAscii = fmt (s.cpmCounter * TUBE_FACTOR % 65536) ++ 0 :: [] := by
  obtain ⟨e1, g1⟩ := intToChars_field s.secCounter _ h1
  obtain ⟨e2, g2⟩ := intToChars_field s.cpmCurrentCounter _ h2
  obtain ⟨e3, g3⟩ := intToChars_field s.cpmCounter _ h3
  obtain ⟨e4, g4⟩ := intToChars_field (s.cpmCounter * TUBE_FACTOR % 65536) _ h4
  generalize hs6 : ({ s with
      uSvPerHour := s.cpmCounter * TUBE_FACTOR % 65536
      cpmAscii := intToChars s.cpmCounter s.cpmAscii
      counterAscii := intToChars s.cpmCurrentCounter s.counterAscii
      uSvPerHourAscii := intToChars (s.cpmCounter * TUBE_FACTOR % 65536) s.uSvPerHourAscii
      secondsAscii := intToChars s.secCounter s.secondsAscii } : State) = s6
  have hbody : mainLoopBody fuel s =
      (TimerA_UART_print fuel s6 (cstr "RELATIVE TIME = ")).bind fun s7 =>
      (TimerA_UART_print fuel s7 s7.secondsAscii).bind fun s8 =>
      (TimerA_UART_print fuel s8
        (cstr " seconds, GEIGER MULLER PROTOTYTPE REPORTING CURRENT COUNTER = ")).bind fun s9 =>
      (TimerA_UART_print fuel s9 s9.counterAscii).bind fun s10 =>
      (TimerA_UART_print fuel s10 (cstr ", CPM = ")).bind fun s11 =>
      (TimerA_UART_print fuel s11 s11.cpmAscii).bind fun s12 =>
      (TimerA_UART_print fuel s12 (cstr ", uSv/h = ")).bind fun s13 =>
      (TimerA_UART_print fuel s13 s13.uSvPerHourAscii).bind fun s14 =>
      (TimerA_UART_print fuel s14 (cstr "\n\r")).bind fun s15 =>
      some { s15 with has_send_data := 1 } := by
    rw [← hs6]
    simp [mainLoopBody, heven, hflag]
  have q1 : s6.secondsAscii = fmt s.secCounter ++ 0 :: [] := by rw [← hs6]; exact e1
  have q2 : s6.counterAscii = fmt s.cpmCurrentCounter ++ 0 :: [] := by rw [← hs6]; exact e2
  have q3 : s6.cpmAscii = fmt s.cpmCounter ++ 0 :: [] := by rw [← hs6]; exact e3
  have q4 : s6.uSvPerHourAscii = fmt (s.cpmCounter * TUBE_FACTOR % 65536) ++ 0 :: [] := by
    rw [← hs6]; exact e4
  have t6 : s6.txBitCnt < fuel := by rw [← hs6]; exact hlt
  have c6 : s6.txCalls = s.txCalls := by rw [← hs6]
  have i6 : Idle s → Idle s6 := by rw [← hs6]; exact id
  obtain ⟨s7, r7, t7, i7, f7, c7⟩ :=
    TimerA_UART_print_spec fuel hf [] (cbytes "RELATIVE TIME = ") s6 (by decide) t6
  obtain ⟨s8, r8, t8, i8, f8, c8⟩ :=
    TimerA_UART_print_spec fuel hf [] (fmt s.secCounter) s7 (fmt_ne_zero _) t7
  obtain ⟨s9, r9, t9, i9, f9, c9⟩ :=
    TimerA_UART_print_spec fuel hf []
      (cbytes " seconds, GEIGER MULLER PROTOTYTPE REPORTING CURRENT COUNTER = ") s8
      (by decide) t8
  obtain ⟨s10, r10, t10, i10, f10, c10⟩ :=
    TimerA_UART_print_spec fuel hf [] (fmt s.cpmCurrentCounter) s9 (fmt_ne_zero _) t9
  obtain ⟨s11, r11, t11, i11, f11, c11⟩ :=
    TimerA_UART_print_spec fuel hf [] (cbytes ", CPM = ") s10 (by decide) t10
  obtain ⟨s12, r12, t12, i12, f12, c12⟩ :=
    TimerA_UART_print_spec fuel hf [] (fmt s.cpmCounter) s11 (fmt_ne_zero _) t11
  obtain ⟨s13, r13, t13, i13, f13, c13⟩ :=
    TimerA_UART_print_spec fuel hf [] (cbytes ", uSv/h = ") s12 (by decide) t12
  obtain ⟨s14, r14, t14, i14, f14, c14⟩ :=
    TimerA_UART_print_spec fuel hf [] (fmt (s.cpmCounter * TUBE_FACTOR % 65536)) s13
      (fmt_ne_zero _) t13
  obtain ⟨s15, r15, t15, i15, f15, c15⟩ :=
    TimerA_UART_print_spec fuel hf [] (cbytes "\n\r") s14 (by decide) t14
  have F : Frame s6 s15 :=
    f7.trans (f8.trans (f9.trans (f10.trans (f11.trans (f12.trans (f13.trans (f14.trans f15)))))))
  refine ⟨{ s15 with has_send_data := 1 }, ?_, ?_, ?_, rfl, ?_, ?_, ?_, ⟨?_, ?_, ?_, ?_⟩, ?_,
    ?_⟩
  · rw [hbody, cstr_eq, r7]
    simp only [Option.some_bind]
    rw [f7.secondsAscii, q1, r8]
    simp only [Option.some_bind]
    rw [cstr_eq, r9]
    simp only [Option.some_bind]
    rw [f9.counterAscii, f8.counterAscii, f7.counterAscii, q2, r10]
    simp only [Option.some_bind]
    rw [cstr_eq, r11]
    simp only [Option.some_bind]
    rw [(f7.trans (f8.trans (f9.trans (f10.trans f11)))).cpmAscii, q3, r12]
    simp only [Option.some_bind]
    rw [cstr_eq, r13]
    simp only [Option.some_bind]
    rw [(f7.trans (f8.trans (f9.trans (f10.trans (f11.trans (f12.trans f13)))))).uSvPerHourAscii,
      q4, r14]
    simp only [Option.some_bind]
    rw [cstr_eq, r15]
    rfl
  · show s15.txCalls = _
    rw [c15, c14, c13, c12, c11, c10, c9, c8, c7, c6]
    simp [reportLine]
  · show s15.uSvPerHour = _
    rw [F.uSvPerHour, ← hs6]
  · show s15.cpmCounter = _
    rw [F.cpmCounter, ← hs6]
  · show s15.cpmCurrentCounter = _
    rw [F.cpmCurrentCounter, ← hs6]
  · show s15.secCounter = _
    rw [F.secCounter, ← hs6]
  · show IsField s15.secondsAscii
    rw [F.secondsAscii, ← hs6]; exact g1
  · show IsField s15.counterAscii
    rw [F.counterAscii, ← hs6]; exact g2
  · show IsField s15.cpmAscii
    rw [F.cpmAscii, ← hs6]; exact g3
  · show IsField s15.uSvPerHourAscii
    rw [F.uSvPerHourAscii, ← hs6]; exact g4
  · intro hi
    exact i15 (i14 (i13 (i12 (i11 (i10 (i9 (i8 (i7 (i6 hi)))))))))
  · show s15.uSvPerHourAscii = _
    rw [F.uSvPerHourAscii, q4]

/-- C9: in every state in which the reporting loop emits a report (even
`secCounter`, `has_send_data` clear, buffers as declared in `main`), with enough
fuel for the busy waits the loop body returns and the bytes it hands to
`TimerA_UART_tx` are exactly "RELATIVE TIME = ", the field of `secCounter`,
" seconds, GEIGER MULLER PROTOTYTPE REPORTING CURRENT COUNTER = ", the field of
`cpmCurrentCounter`, ", CPM = ", the field of `cpmCounter`, ", uSv/h = ", the
field of the dose rate, and "\n\r".  The dose rate is the one this pass computes
from `cpmCounter`: `cpmCounter * TUBE_FACTOR` in 16 bits, stored in `uSvPerHour`
and formatted into `uSvPerHourAscii` by this pass.  Each field is the five
zero-padded decimal digits that `intToChars` writes. -/
theorem report_line_content (fuel : Nat) (s : State) (hf : 10 < fuel)
    (hlt : s.txBitCnt < fuel) (heven : s.secCounter % 2 = 0) (hflag : s.has_send_data = 0)
    (h1 : IsField s.secondsAscii) (h2 : IsField s.counterAscii) (h3 : IsField s.cpmAscii)
    (h4 : IsField s.uSvPerHourAscii) :
    ∃ s1, mainLoopBody fuel s = some s1 ∧
      s1.txCalls = s.txCalls ++
        (cbytes "RELATIVE TIME = " ++ fmt s.secCounter ++
          cbytes " seconds, GEIGER MULLER PROTOTYTPE REPORTING CURRENT COUNTER = " ++
          fmt s.cpmCurrentCounter ++ cbytes ", CPM = " ++ fmt s.cpmCounter ++
          cbytes ", uSv/h = " ++ fmt (s.cpmCounter * TUBE_FACTOR % 65536) ++ cbytes "\n\r") ∧
      s1.uSvPerHour = s.cpmCounter * TUBE_FACTOR % 65536 ∧
      s1.uSvPerHourAscii = fmt (s.cpmCounter * TUBE_FACTOR % 65536) ++ [0] ∧
      s1.txCalls = s.txCalls ++
        (cbytes "RELATIVE TIME = " ++ fmt s.secCounter ++
          cbytes " seconds, GEIGER MULLER PROTOTYTPE REPORTING CURRENT COUNTER = " ++
          fmt s.cpmCurrentCounter ++ cbytes ", CPM = " ++ fmt s.cpmCounter ++
          cbytes ", uSv/h = " ++ fmt s1.uSvPerHour ++ cbytes "\n\r") ∧
      (∀ v, fmt v = (intToChars v s.secondsAscii).take 5 ∧
        fmt v = [48 + v / 10000 % 10, 48 + v / 1000 % 10, 48 + v / 100 % 10, 48 + v / 10 % 10,
          48 + v % 10]) := by
  obtain ⟨s1, e1, c1, d1, _, _, _, _, _, _, a1⟩ :=
    mainLoopBody_report fuel s hf hlt heven hflag h1 h2 h3 h4
  refine ⟨s1, e1, ?_, d1, a1, ?_, ?_⟩
  · rw [c1]; rfl
  · rw [c1, d1]; rfl
  · intro v
    constructor
    · rw [(intToChars_field v _ h1).1]; simp [fmt_eq]
    · rw [fmt_eq]; simp [Nat.add_comm]

set_option maxRecDepth 100000 in
theorem report_line_content_witness :
    ∃ s1, mainLoopBody 11
        { bootState with
          secCounter := 12, cpmCurrentCounter := 345, cpmCounter := 100,
          txCalls := [0x58] } = some s1 ∧
      s1.txCalls = 0x58 :: cbytes ("RELATIVE TIME = 00012 seconds, GEIGER MULLER PROTOTYTPE " ++
        "REPORTING CURRENT COUNTER = 00345, CPM = 00100, uSv/h = 05700\n\r") ∧
      s1.uSvPerHour = 5700 ∧
      s1.uSvPerHourAscii = cbytes "05700" ++ [0] := by
  obtain ⟨s1, e1, c1, d1, a1, _, _⟩ :=
    report_line_content 11
      { bootState with
        secCounter := 12, cpmCurrentCounter := 345, cpmCounter := 100, txCalls := [0x58] }
      (by decide) (by decide) (by decide) (by decide) ⟨rfl, rfl⟩ ⟨rfl, rfl⟩ ⟨rfl, rfl⟩ ⟨rfl, rfl⟩
  refine ⟨s1, e1, ?_, ?_, ?_⟩
  · rw [c1]; decide
  · rw [d1]; decide
  · rw [a1]; decide

/-- C10, as the code has it: the dose rate the reporting loop computes from
`cpmCounter = c` is `(c * 57) % 65536`, which is `c * 57` whenever `c ≤ 1149`;
the uSv/h field of the report (and the buffer `uSvPerHourAscii`) holds the five
decimal digits of that value; for `c = 100` the dose rate is 5700 and the field
is "05700". -/
theorem dose_conversion (fuel : Nat) (s : State) (hf : 10 < fuel)
    (hlt : s.txBitCnt < fuel) (heven : s.secCounter % 2 = 0) (hflag : s.has_send_data = 0)
    (h1 : IsField s.secondsAscii) (h2 : IsField s.counterAscii) (h3 : IsField s.cpmAscii)
    (h4 : IsField s.uSvPerHourAscii) :
    ∃ s1, mainLoopBody fuel s = some s1 ∧
      s1.uSvPerHour = (s.cpmCounter * 57) % 65536 ∧
      (s.cpmCounter ≤ 1149 → s1.uSvPerHour = s.cpmCounter * 57) ∧
      s1.uSvPerHourAscii.take 5 = fmt s1.uSvPerHour ∧
      s1.txCalls = s.txCalls ++
        (cbytes "RELATIVE TIME = " ++ fmt s.secCounter ++
          cbytes " seconds, GEIGER MULLER PROTOTYTPE REPORTING CURRENT COUNTER = " ++
          fmt s.cpmCurrentCounter ++ cbytes ", CPM = " ++ fmt s.cpmCounter ++
          cbytes ", uSv/h = " ++ fmt ((s.cpmCounter * 57) % 65536) ++ cbytes "\n\r") ∧
      (s.cpmCounter = 100 → s1.uSvPerHour = 5700 ∧ fmt s1.uSvPerHour = cbytes "05700") := by
  obtain ⟨s1, e1, c1, d1, _, _, _, _, _, _, a1⟩ :=
    mainLoopBody_report fuel s hf hlt heven hflag h1 h2 h3 h4
  have d2 : s1.uSvPerHour = (s.cpmCounter * 57) % 65536 := d1
  refine ⟨s1, e1, d2, ?_, ?_, ?_, ?_⟩
  · intro hc
    rw [d2]
    exact Nat.mod_eq_of_lt (by omega)
  · rw [a1, d1]; simp [fmt_eq]
  · rw [c1]; rfl
  · intro hc
    rw [d2, hc]
    exact ⟨by decide, by decide⟩

theorem dose_conversion_witness :
    ∃ s1, mainLoopBody 11 { bootState with cpmCounter := 100 } = some s1 ∧
      s1.uSvPerHour = 5700 ∧ fmt s1.uSvPerHour = cbytes "05700" := by
  obtain ⟨s1, e1, _, _, _, _, h100⟩ :=
    dose_conversion 11 { bootState with cpmCounter := 100 } (by decide) (by decide)
      (by decide) (by decide) ⟨rfl, rfl⟩ ⟨rfl, rfl⟩ ⟨rfl, rfl⟩ ⟨rfl, rfl⟩
  exact ⟨s1, e1, h100 rfl⟩

/-- C10 as stated fails: with `cpmCounter = 1150` the reporting loop computes the
dose rate 14, not `1150 * 57 = 65550`, and prints the field "00014". -/
theorem dose_conversion_overflow :
    ∃ s1, mainLoopBody 11 { bootState with cpmCounter := 1150 } = some s1 ∧
      s1.uSvPerHour = 14 ∧ s1.uSvPerHour ≠ 1150 * TUBE_FACTOR ∧
      s1.uSvPerHourAscii.take 5 = cbytes "00014" ∧
      s1.uSvPerHourAscii.take 5 ≠ fmt (1150 * TUBE_FACTOR) := by
  obtain ⟨s1, e1, _, d1, _, _, _, _, _, _, a1⟩ :=
    mainLoopBody_report 11 { bootState with cpmCounter := 1150 } (by decide) (by decide)
      (by decide) (by decide) ⟨rfl, rfl⟩ ⟨rfl, rfl⟩ ⟨rfl, rfl⟩ ⟨rfl, rfl⟩
  have d2 : s1.uSvPerHour = 14 := d1
  have a2 : s1.uSvPerHourAscii = fmt 14 ++ 0 :: [] := a1
  refine ⟨s1, e1, d2, by rw [d2]; decide, by rw [a2]; decide, by rw [a2]; decide⟩

/-! ## Runs: theorems -/

theorem waitCCIE_frame (fuel : Nat) : ∀ s s1 : State, waitCCIE fuel s = some s1 → Frame s s1 := by
  induction fuel with
  | zero =>
    intro s s1 h
    simp only [waitCCIE] at h
    split_ifs at h
    cases h
    exact Frame.refl s
  | succ fuel ih =>
    intro s s1 h
    simp only [waitCCIE] at h
    split_ifs at h
    · exact (timerTick_frame s).1.trans (ih _ _ h)
    · cases h
      exact Frame.refl s

theorem TimerA_UART_tx_frame (fuel : Nat) (s s1 : State) (b : Nat)
    (h : TimerA_UART_tx fuel s b = some s1) : Frame s s1 := by
  simp only [TimerA_UART_tx, Option.bind_eq_some] at h
  obtain ⟨s2, h2, h3⟩ := h
  have f2 := waitCCIE_frame fuel _ _ h2
  have f3 := waitCCIE_frame fuel _ _ h3
  exact Frame.trans (Frame.trans ⟨f2.1, f2.2, f2.3, f2.4, f2.5, f2.6, f2.7, f2.8, f2.9,
    f2.10, f2.11⟩ (txLoad_frame s2 b).1) f3

theorem TimerA_UART_print_frame (fuel : Nat) : ∀ (l : List Nat) (s s1 : State),
    TimerA_UART_print fuel s l = some s1 → Frame s s1 := by
  intro l
  induction l with
  | nil => intro s s1 h; simp [TimerA_UART_print] at h
  | cons c l ih =>
    intro s s1 h
    simp only [TimerA_UART_print] at h
    split_ifs at h
    · simp only [Option.bind_eq_some] at h
      obtain ⟨s2, h2, h3⟩ := h
      exact (TimerA_UART_tx_frame fuel s s2 c h2).trans (ih s2 s1 h3)
    · cases h
      exact Frame.refl s

theorem mainLoopBody_counters (fuel : Nat) (s s1 : State) (h : mainLoopBody fuel s = some s1) :
    s1.cpmCounter = s.cpmCounter ∧ s1.cpmCurrentCounter = s.cpmCurrentCounter ∧
    s1.secCounter = s.secCounter := by
  by_cases hc : s.secCounter % 2 = 0 ∧ s.has_send_data = 0
  · simp only [mainLoopBody, hc.1, hc.2, ne_eq, not_true_eq_false, if_false, and_self, if_true,
      Option.bind_eq_some] at h
    obtain ⟨s7, h7, s8, h8, s9, h9, s10, h10, s11, h11, s12, h12, s13, h13, s14, h14, s15, h15,
      hs⟩ := h
    have F := (TimerA_UART_print_frame fuel _ _ _ h7).trans
      ((TimerA_UART_print_frame fuel _ _ _ h8).trans
      ((TimerA_UART_print_frame fuel _ _ _ h9).trans
      ((TimerA_UART_print_frame fuel _ _ _ h10).trans
      ((TimerA_UART_print_frame fuel _ _ _ h11).trans
      ((TimerA_UART_print_frame fuel _ _ _ h12).trans
      ((TimerA_UART_print_frame fuel _ _ _ h13).trans
      ((TimerA_UART_print_frame fuel _ _ _ h14).trans
      (TimerA_UART_print_frame fuel _ _ _ h15))))))))
    cases hs
    exact ⟨F.cpmCounter, F.cpmCurrentCounter, F.secCounter⟩
  · rw [mainLoopBody_idle fuel s hc] at h
    cases h
    split_ifs <;> exact ⟨rfl, rfl, rfl⟩

theorem run_append (l1 l2 : List Event) : ∀ s : State,
    run s (l1 ++ l2) = (run s l1).bind fun s1 => run s1 l2 := by
  induction l1 with
  | nil => intro s; rfl
  | cons e l1 ih =>
    intro s
    simp only [List.cons_append, run]
    cases step s e with
    | none => rfl
    | some s1 => exact ih s1

theorem ticks_append (l1 l2 : List Event) : ticks (l1 ++ l2) = ticks l1 + ticks l2 := by
  induction l1 with
  | nil => simp [ticks]
  | cons e l1 ih =>
    cases e with
    | port ifg => simp [ticks, ih]
    | wdt => simp [ticks, ih]; omega
    | loop f => simp [ticks, ih]

theorem pulsesBetween_append (a b : Nat) (l1 l2 : List Event) : ∀ t : Nat,
    pulsesBetween a b t (l1 ++ l2) =
      pulsesBetween a b t l1 + pulsesBetween a b (t + ticks l1) l2 := by
  induction l1 with
  | nil => intro t; simp [pulsesBetween, ticks]
  | cons e l1 ih =>
    intro t
    cases e with
    | port ifg =>
      rw [List.cons_append]
      simp only [pulsesBetween, ticks]
      rw [ih]; omega
    | wdt =>
      rw [List.cons_append]
      simp only [pulsesBetween, ticks]
      rw [ih, show t + 1 + ticks l1 = t + (ticks l1 + 1) by omega]
    | loop f =>
      rw [List.cons_append]
      simp only [pulsesBetween, ticks]
      rw [ih]; omega

theorem pulsesBetween_eq_zero_of_lt (a b : Nat) (l : List Event) : ∀ t : Nat,
    t + ticks l < a → pulsesBetween a b t l = 0 := by
  induction l with
  | nil => intro t _; rfl
  | cons e l ih =>
    intro t h
    cases e with
    | port ifg =>
      simp only [ticks] at h
      simp only [pulsesBetween, ih t h]
      rw [if_neg (by omega)]
    | wdt =>
      simp only [ticks] at h
      simp only [pulsesBetween]
      exact ih (t + 1) (by omega)
    | loop f =>
      simp only [ticks] at h
      simp only [pulsesBetween, ih t h]
      rw [if_neg (by omega)]

theorem pulsesBetween_split (a b c : Nat) (hab : a ≤ b) (hbc : b ≤ c) (l : List Event) :
    ∀ t : Nat, pulsesBetween a c t l = pulsesBetween a b t l + pulsesBetween b c t l := by
  induction l with
  | nil => intro t; rfl
  | cons e l ih =>
    intro t
    cases e with
    | port ifg =>
      simp only [pulsesBetween, ih t]
      by_cases hp : isPulse (Event.port ifg) = true
      · by_cases h1 : t < a
        · simp [hp]; split_ifs <;> omega
        · simp [hp]; split_ifs <;> omega
      · simp [hp]
    | wdt => simp only [pulsesBetween]; exact ih (t + 1)
    | loop f => simp [pulsesBetween, ih t, isPulse]

theorem pulses_eq_pulsesBetween (l : List Event) : ∀ t : Nat,
    pulses l = pulsesBetween 0 (t + ticks l + 1) t l := by
  induction l with
  | nil => intro t; rfl
  | cons e l ih =>
    intro t
    cases e with
    | port ifg =>
      have := ih t
      simp only [pulses] at this
      simp only [pulses, pulsesBetween, ticks, List.countP_cons, this]
      have ht : t < t + ticks l + 1 := by omega
      by_cases hp : isPulse (Event.port ifg) = true
      · simp [hp, ht]; omega
      · simp [hp]
    | wdt =>
      have := ih (t + 1)
      simp only [pulses] at this
      simp only [pulses, pulsesBetween, ticks, List.countP_cons, this, isPulse]
      rw [show t + 1 + ticks l + 1 = t + (ticks l + 1) + 1 by omega]
      simp
    | loop f =>
      have := ih t
      simp only [pulses] at this
      simp [pulses, pulsesBetween, ticks, List.countP_cons, this, isPulse]

theorem windowCount_snoc (w : Nat) (l : List Event) (e : Event) :
    windowCount w (l ++ [e]) =
      windowCount w l +
        (if isPulse e = true ∧ 60 * w ≤ ticks l ∧ ticks l < 60 * w + 60 then 1 else 0) := by
  simp only [windowCount, pulsesBetween_append, Nat.zero_add]
  cases e with
  | port ifg => simp [pulsesBetween]
  | wdt => simp [pulsesBetween, isPulse]
  | loop f => simp [pulsesBetween, isPulse]

theorem ticks_snoc (l : List Event) (e : Event) :
    ticks (l ++ [e]) = ticks l + (if e = Event.wdt then 1 else 0) := by
  rw [ticks_append]
  cases e <;> simp [ticks]

theorem ISR_portChange_effect (s : State) (ifg : Nat) :
    (ISR_portChange { s with P1IFG := ifg }).cpmCounter = s.cpmCounter ∧
    (ISR_portChange { s with P1IFG := ifg }).secCounter = s.secCounter ∧
    (ISR_portChange { s with P1IFG := ifg }).cpmCurrentCounter =
      (if isPulse (Event.port ifg) = true then (s.cpmCurrentCounter + 1) % 65536
        else s.cpmCurrentCounter) := by
  by_cases h : ifg &&& GM_INPUT = 0
  · have hp : isPulse (Event.port ifg) = false := by simp [isPulse, h]
    simp only [ISR_portChange, h, hp, ne_eq, not_true_eq_false, if_false]
    split_ifs <;> simp_all
  · have hp : isPulse (Event.port ifg) = true := by simp [isPulse, h]
    simp only [ISR_portChange, h, hp, ne_eq, not_false_eq_true, if_true]
    split_ifs <;> simp

theorem ISR_WDT_expire_effect (s : State) (h : s.secCounter < 60) :
    (ISR_WDT_expire s).secCounter = (if s.secCounter = 59 then 0 else s.secCounter + 1) ∧
    (ISR_WDT_expire s).cpmCounter =
      (if s.secCounter = 59 then s.cpmCurrentCounter else s.cpmCounter) ∧
    (ISR_WDT_expire s).cpmCurrentCounter =
      (if s.secCounter = 59 then 0 else s.cpmCurrentCounter) := by
  by_cases h59 : s.secCounter = 59
  · simp [ISR_WDT_expire, MINUTE, h59]
  · have h1 : (s.secCounter + 1) % 256 = s.secCounter + 1 := Nat.mod_eq_of_lt (by omega)
    have h2 : ¬ (60 = s.secCounter + 1) := by omega
    simp [ISR_WDT_expire, MINUTE, h1, h2, h59]

theorem run_snoc (s0 s : State) (l : List Event) (e : Event) (h : run s0 (l ++ [e]) = some s) :
    ∃ s1, run s0 l = some s1 ∧ step s1 e = some s := by
  rw [run_append] at h
  simp only [Option.bind_eq_some] at h
  obtain ⟨s1, h1, h2⟩ := h
  refine ⟨s1, h1, ?_⟩
  simp only [run, Option.bind_eq_some] at h2
  obtain ⟨s2, h3, h4⟩ := h2
  cases h4
  exact h3

/-- The counters along a run that starts with all three at zero. -/
theorem run_counters (s0 : State) (hcpm : s0.cpmCounter = 0) (hcur : s0.cpmCurrentCounter = 0)
    (hsec : s0.secCounter = 0) (trace : List Event) :
    ∀ s, run s0 trace = some s →
      s.secCounter = ticks trace % 60 ∧
      s.cpmCurrentCounter = windowCount (ticks trace / 60) trace % 65536 ∧
      s.cpmCounter =
        (if ticks trace / 60 = 0 then 0
          else windowCount (ticks trace / 60 - 1) trace % 65536) := by
  induction trace using List.reverseRecOn with
  | nil =>
    intro s h
    simp only [run] at h
    cases h
    simp [ticks, windowCount, pulsesBetween, hcpm, hcur, hsec]
  | append_singleton l e ih =>
    intro s h
    obtain ⟨s1, h1, h2⟩ := run_snoc s0 s l e h
    obtain ⟨isec, icur, icpm⟩ := ih s1 h1
    have hlt : s1.secCounter < 60 := by rw [isec]; exact Nat.mod_lt _ (by decide)
    cases e with
    | port ifg =>
      simp only [step, Option.some.injEq] at h2
      obtain ⟨p1, p2, p3⟩ := ISR_portChange_effect s1 ifg
      rw [h2] at p1 p2 p3
      have hw1 : 60 * (ticks l / 60) ≤ ticks l ∧ ticks l < 60 * (ticks l / 60) + 60 := by omega
      simp only [ticks_snoc, windowCount_snoc, if_false, Nat.add_zero, reduceCtorEq]
      refine ⟨by rw [p2, isec], ?_, ?_⟩
      · rw [p3, icur]
        by_cases hp : isPulse (Event.port ifg) = true
        · simp only [hp, hw1, and_self, if_true]; omega
        · simp [hp]
      · rw [p1, icpm]
        by_cases hw : ticks l / 60 = 0
        · simp [hw]
        · have : ¬ (ticks l < 60 * (ticks l / 60 - 1) + 60) := by omega
          simp [hw, this]
    | wdt =>
      simp only [step, Option.some.injEq] at h2
      obtain ⟨p1, p2, p3⟩ := ISR_WDT_expire_effect s1 hlt
      rw [h2] at p1 p2 p3
      simp only [ticks_snoc, windowCount_snoc, if_true, isPulse, Bool.false_eq_true, false_and,
        if_false, Nat.add_zero]
      by_cases h59 : ticks l % 60 = 59
      · have e1 : (ticks l + 1) / 60 = ticks l / 60 + 1 := by omega
        have e2 : (ticks l + 1) % 60 = 0 := by omega
        have z : windowCount (ticks l / 60 + 1) l = 0 :=
          pulsesBetween_eq_zero_of_lt _ _ l 0 (by omega)
        rw [isec] at p1 p2 p3
        simp only [h59, if_true] at p1 p2 p3
        rw [e1, e2, z]
        exact ⟨p1, by rw [p3], by simp [p2, icur]⟩
      · have e1 : (ticks l + 1) / 60 = ticks l / 60 := by omega
        have e2 : (ticks l + 1) % 60 = ticks l % 60 + 1 := by omega
        rw [isec] at p1 p2 p3
        simp only [h59, if_false] at p1 p2 p3
        rw [e1, e2]
        exact ⟨p1, by rw [p3, icur], by rw [p2, icpm]⟩
    | loop f =>
      simp only [step] at h2
      obtain ⟨p1, p2, p3⟩ := mainLoopBody_counters f s1 s h2
      simp only [ticks_snoc, windowCount_snoc, isPulse, Bool.false_eq_true, false_and,
        if_false, Nat.add_zero, reduceCtorEq]
      exact ⟨by rw [p3, isec], by rw [p2, icur], by rw [p1, icpm]⟩

theorem mainInit_spec (r : State) :
    LoopInv (mainInit r) ∧ (mainInit r).cpmCounter = 0 ∧ (mainInit r).cpmCurrentCounter = 0 ∧
    (mainInit r).secCounter = 0 := by
  refine ⟨⟨⟨?_, rfl⟩, ⟨rfl, rfl⟩, ⟨rfl, rfl⟩, ⟨rfl, rfl⟩, ⟨rfl, rfl⟩⟩, rfl, rfl, rfl⟩
  exact and_clear_and r.TACCTL0 _ _ (by decide)

theorem ISR_portChange_loopInv (s : State) (h : LoopInv s) : LoopInv (ISR_portChange s) := by
  simp only [ISR_portChange]
  split_ifs <;> exact h

theorem ISR_WDT_expire_loopInv (s : State) (h : LoopInv s) : LoopInv (ISR_WDT_expire s) := by
  simp only [ISR_WDT_expire]
  split_ifs <;> exact h

theorem step_some (s : State) (h : LoopInv s) (e : Event) (hfuel : ∀ f, e = Event.loop f → 10 < f) :
    ∃ s1, step s e = some s1 ∧ LoopInv s1 := by
  cases e with
  | port ifg => exact ⟨_, rfl, ISR_portChange_loopInv { s with P1IFG := ifg } h⟩
  | wdt => exact ⟨_, rfl, ISR_WDT_expire_loopInv s h⟩
  | loop f =>
    have hf : 10 < f := hfuel f rfl
    obtain ⟨hidle, h1, h2, h3, h4⟩ := h
    by_cases hc : s.secCounter % 2 = 0 ∧ s.has_send_data = 0
    · obtain ⟨s1, e1, _, _, _, _, _, _, g, i1, _⟩ :=
        mainLoopBody_report f s hf (by rw [hidle.2]; exact hf) hc.1 hc.2 h1 h2 h3 h4
      exact ⟨s1, e1, i1 hidle, g⟩
    · refine ⟨_, mainLoopBody_idle f s hc, ?_⟩
      split_ifs <;> exact ⟨hidle, h1, h2, h3, h4⟩

theorem run_some (trace : List Event) : ∀ s0 : State, LoopInv s0 →
    (∀ f, Event.loop f ∈ trace → 10 < f) → ∃ s, run s0 trace = some s ∧ LoopInv s := by
  induction trace with
  | nil => intro s0 h _; exact ⟨s0, rfl, h⟩
  | cons e l ih =>
    intro s0 h hfuel
    obtain ⟨s1, e1, i1⟩ :=
      step_some s0 h e (fun f hf => hfuel f (by rw [hf]; exact List.mem_cons_self _ _))
    obtain ⟨s2, e2, i2⟩ := ih s1 i1 (fun f hf => hfuel f (List.mem_cons_of_mem _ hf))
    exact ⟨s2, by simp [run, e1, e2], i2⟩

/-- C1: start `main` at power-on and let any trace of atomic steps follow that
holds exactly 60 watchdog ticks and `N ≤ 65535` runs of the pulse handler with
the GM flag set, in any interleaving (passes of the main loop and button-only
runs may be mixed in).  The run goes through, and at its end
`cpmCounter + cpmCurrentCounter = N`: `cpmCounter` is exactly the number of
pulses handled before the 60th tick and `cpmCurrentCounter` exactly the number
handled after it. -/
theorem no_pulse_lost (r : State) (trace : List Event)
    (hfuel : ∀ f, Event.loop f ∈ trace → 10 < f) (hticks : ticks trace = 60)
    (hN : pulses trace ≤ 65535) :
    ∃ s, run (mainInit r) trace = some s ∧
      s.cpmCounter + s.cpmCurrentCounter = pulses trace ∧
      s.cpmCounter = pulsesBetween 0 60 0 trace ∧
      s.cpmCurrentCounter = pulsesBetween 60 61 0 trace := by
  obtain ⟨hinv, z1, z2, z3⟩ := mainInit_spec r
  obtain ⟨s, hs, _⟩ := run_some trace (mainInit r) hinv hfuel
  obtain ⟨_, icur, icpm⟩ := run_counters (mainInit r) z1 z2 z3 trace s hs
  have hp : pulses trace = pulsesBetween 0 60 0 trace + pulsesBetween 60 61 0 trace := by
    rw [pulses_eq_pulsesBetween trace 0, hticks]
    exact pulsesBetween_split 0 60 61 (by decide) (by decide) trace 0
  have hw : pulsesBetween 60 120 0 trace = pulsesBetween 60 61 0 trace := by
    rw [pulsesBetween_split 60 61 120 (by decide) (by decide) trace 0,
      pulsesBetween_eq_zero_of_lt 61 120 trace 0 (by omega)]
    rfl
  rw [hticks] at icur icpm
  simp only [windowCount] at icur icpm
  norm_num at icur icpm
  rw [hw] at icur
  refine ⟨s, hs, ?_, ?_, ?_⟩ <;> omega

theorem no_pulse_lost_witness :
    ∃ s, run (mainInit zeroRegs)
        (Event.port 0x10 :: (List.replicate 60 Event.wdt ++ [Event.port 0x10, Event.port 0x18]))
          = some s ∧
      s.cpmCounter + s.cpmCurrentCounter =
        pulses (Event.port 0x10 ::
          (List.replicate 60 Event.wdt ++ [Event.port 0x10, Event.port 0x18])) ∧
      s.cpmCounter = pulsesBetween 0 60 0
        (Event.port 0x10 :: (List.replicate 60 Event.wdt ++ [Event.port 0x10, Event.port 0x18])) ∧
      s.cpmCurrentCounter = pulsesBetween 60 61 0
        (Event.port 0x10 :: (List.replicate 60 Event.wdt ++ [Event.port 0x10, Event.port 0x18])) :=
  no_pulse_lost zeroRegs
    (Event.port 0x10 :: (List.replicate 60 Event.wdt ++ [Event.port 0x10, Event.port 0x18]))
    (by intro f hf; simp at hf) (by decide) (by decide)

/-- C5: in every state reached from the start of `main` by watchdog ticks,
port-handler runs and passes of the main loop, `secCounter < 60`.  From such a
state only a watchdog tick changes `secCounter`; the tick that would take it to
60 sets it to 0 and in the same run writes `cpmCounter := cpmCurrentCounter`;
any other tick adds one (so the result is not 0) and leaves `cpmCounter`. -/
theorem secCounter_lt_minute (r : State) (trace : List Event) (s : State)
    (h : run (mainInit r) trace = some s) :
    s.secCounter < 60 ∧
    ∀ e s1, step s e = some s1 →
      s1.secCounter < 60 ∧
      (e = Event.wdt → s.secCounter + 1 = 60 →
        s1.secCounter = 0 ∧ s1.cpmCounter = s.cpmCurrentCounter) ∧
      (e = Event.wdt → s.secCounter + 1 ≠ 60 →
        s1.secCounter = s.secCounter + 1 ∧ s1.cpmCounter = s.cpmCounter) ∧
      (e ≠ Event.wdt → s1.secCounter = s.secCounter ∧ s1.cpmCounter = s.cpmCounter) := by
  obtain ⟨_, z1, z2, z3⟩ := mainInit_spec r
  obtain ⟨isec, _, _⟩ := run_counters (mainInit r) z1 z2 z3 trace s h
  have hlt : s.secCounter < 60 := by rw [isec]; exact Nat.mod_lt _ (by decide)
  refine ⟨hlt, ?_⟩
  intro e s1 hstep
  cases e with
  | port ifg =>
    simp only [step, Option.some.injEq] at hstep
    obtain ⟨p1, p2, _⟩ := ISR_portChange_effect s ifg
    rw [hstep] at p1 p2
    refine ⟨by rw [p2]; exact hlt, ?_, ?_, fun _ => ⟨p2, p1⟩⟩ <;> intro he <;> cases he
  | wdt =>
    simp only [step, Option.some.injEq] at hstep
    obtain ⟨p1, p2, _⟩ := ISR_WDT_expire_effect s hlt
    rw [hstep] at p1 p2
    refine ⟨?_, ?_, ?_, fun he => absurd rfl he⟩
    · rw [p1]; split_ifs <;> omega
    · intro _ h60
      have h59 : s.secCounter = 59 := by omega
      rw [p1, p2]; simp [h59]
    · intro _ h60
      have h59 : ¬ s.secCounter = 59 := by omega
      rw [p1, p2]; simp [h59]
  | loop f =>
    simp only [step] at hstep
    obtain ⟨p1, _, p3⟩ := mainLoopBody_counters f s s1 hstep
    refine ⟨by rw [p3]; exact hlt, ?_, ?_, fun _ => ⟨p3, p1⟩⟩ <;> intro he <;> cases he

set_option maxRecDepth 100000 in
theorem secCounter_lt_minute_witness :
    ({ bootState with secCounter := 59 } : State).secCounter < 60 ∧
    ∀ e s1, step { bootState with secCounter := 59 } e = some s1 →
      s1.secCounter < 60 ∧
      (e = Event.wdt → ({ bootState with secCounter := 59 } : State).secCounter + 1 = 60 →
        s1.secCounter = 0 ∧
        s1.cpmCounter = ({ bootState with secCounter := 59 } : State).cpmCurrentCounter) ∧
      (e = Event.wdt → ({ bootState with secCounter := 59 } : State).secCounter + 1 ≠ 60 →
        s1.secCounter = ({ bootState with secCounter := 59 } : State).secCounter + 1 ∧
        s1.cpmCounter = ({ bootState with secCounter := 59 } : State).cpmCounter) ∧
      (e ≠ Event.wdt →
        s1.secCounter = ({ bootState with secCounter := 59 } : State).secCounter ∧
        s1.cpmCounter = ({ bootState with secCounter := 59 } : State).cpmCounter) :=
  secCounter_lt_minute zeroRegs (List.replicate 59 Event.wdt) { bootState with secCounter := 59 }
    (by rfl)

/-- C6: in every run from the start of `main`, `secCounter` is the number of
ticks so far modulo 60, so the rollovers are the ticks number 60, 120, ...;
before the first rollover `cpmCounter` is 0, and after the `m`-th rollover
(`m ≥ 1`) and before the next one `cpmCounter` is, modulo 65536, the number of
pulse-handler runs with the GM flag set that came after the `(m - 1)`-th
rollover (power-on for `m = 1`) and before the `m`-th. -/
theorem cpmCounter_last_window (r : State) (trace : List Event) (s : State)
    (h : run (mainInit r) trace = some s) :
    s.secCounter = ticks trace % 60 ∧
    (ticks trace < 60 → s.cpmCounter = 0) ∧
    (∀ m, 1 ≤ m → 60 * m ≤ ticks trace → ticks trace < 60 * (m + 1) →
      s.cpmCounter = pulsesBetween (60 * (m - 1)) (60 * m) 0 trace % 65536) := by
  obtain ⟨_, z1, z2, z3⟩ := mainInit_spec r
  obtain ⟨isec, _, icpm⟩ := run_counters (mainInit r) z1 z2 z3 trace s h
  refine ⟨isec, ?_, ?_⟩
  · intro hlt
    have : ticks trace / 60 = 0 := by omega
    rw [icpm, if_pos this]
  · intro m hm h1 h2
    have hw : ticks trace / 60 = m := by omega
    have hm0 : ¬ m = 0 := by omega
    have e60 : 60 * (m - 1) + 60 = 60 * m := by omega
    rw [icpm, hw, if_neg hm0, windowCount, e60]

set_option maxRecDepth 100000 in
theorem cpmCounter_last_window_witness :
    ({ bootState with cpmCounter := 1, cpmCurrentCounter := 1 } : State).cpmCounter =
      pulsesBetween (60 * (1 - 1)) (60 * 1) 0
        (Event.port 0x10 :: (List.replicate 60 Event.wdt ++ [Event.port 0x10])) % 65536 :=
  (cpmCounter_last_window zeroRegs
    (Event.port 0x10 :: (List.replicate 60 Event.wdt ++ [Event.port 0x10]))
    { bootState with cpmCounter := 1, cpmCurrentCounter := 1 } (by rfl)).2.2 1
    (by decide) (by decide) (by decide)

/-! ## Software UART: a whole frame -/

theorem timerTick_pinTrace (s : State) :
    (timerTick s).pinTrace = s.pinTrace ++ [txPin (ISR_Timer_A_expire s)] ∧
    txPin (timerTick s) = txPin (ISR_Timer_A_expire s) ∧
    (timerTick s).txData = (ISR_Timer_A_expire s).txData := by
  refine ⟨?_, rfl, rfl⟩
  simp only [timerTick, ISR_Timer_A_expire]
  split_ifs <;> rfl

theorem timerTick_zero_keeps (s : State) (h : s.txBitCnt = 0) :
    (timerTick s).pinTrace = s.pinTrace ++ [txPin s] ∧ txPin (timerTick s) = txPin s ∧
    (timerTick s).txData = s.txData ∧ (timerTick s).P1OUT = s.P1OUT := by
  simp [timerTick, ISR_Timer_A_expire, h, txPin]

theorem timerTick_iterate (n : Nat) : ∀ s : State, n ≤ s.txBitCnt →
    (timerTick^[n] s).pinTrace =
      s.pinTrace ++ (List.range n).map (fun i => s.txData / 2 ^ i % 2) ∧
    (timerTick^[n] s).txData = s.txData / 2 ^ n ∧
    (timerTick^[n] s).txBitCnt = s.txBitCnt - n ∧
    (timerTick^[n] s).TACCTL0 = s.TACCTL0 ∧
    (0 < n → txPin (timerTick^[n] s) = s.txData / 2 ^ (n - 1) % 2) ∧
    Frame s (timerTick^[n] s) ∧ (timerTick^[n] s).txCalls = s.txCalls := by
  induction n with
  | zero =>
    intro s _
    exact ⟨by simp, by simp, rfl, rfl, fun h => absurd h (by decide), Frame.refl s, rfl⟩
  | succ n ih =>
    intro s hn
    obtain ⟨i1, i2, i3, i4, _, i6, i7⟩ := ih s (by omega)
    have h0 : (timerTick^[n] s).txBitCnt ≠ 0 := by rw [i3]; omega
    obtain ⟨t1, t2⟩ := timerTick_pos _ h0
    obtain ⟨d1, d2⟩ := txData_ISR_Timer_A_expire _ h0
    have hp := txPin_ISR_Timer_A_expire _ h0
    obtain ⟨f1, c1⟩ := timerTick_frame (timerTick^[n] s)
    rw [Function.iterate_succ_apply']
    have hpin : txPin (timerTick (timerTick^[n] s)) = s.txData / 2 ^ n % 2 := by
      rw [(timerTick_pinTrace _).2.1, hp, i2]
    refine ⟨?_, ?_, ?_, ?_, ?_, i6.trans f1, c1.trans i7⟩
    · rw [(timerTick_pinTrace _).1, hp, i1, i2, List.range_succ]
      simp
    · rw [(timerTick_pinTrace _).2.2, d1, i2, Nat.div_div_eq_div_mul, pow_succ]
    · rw [t2, i3]; omega
    · rw [t1, i4]
    · intro _
      rw [hpin]; simp

theorem waitCCIE_armed (n : Nat) : ∀ (fuel : Nat) (s : State), s.TACCTL0 &&& CCIE ≠ 0 →
    s.txBitCnt = n → n < fuel → waitCCIE fuel s = some (timerTick^[n + 1] s) := by
  induction n with
  | zero =>
    intro fuel s hset hn hlt
    obtain ⟨f, rfl⟩ : ∃ f, fuel = f + 1 := ⟨fuel - 1, by omega⟩
    rw [waitCCIE, if_pos hset]
    exact waitCCIE_clear _ _ (timerTick_zero s hn).1
  | succ n ih =>
    intro fuel s hset hn hlt
    obtain ⟨f, rfl⟩ : ∃ f, fuel = f + 1 := ⟨fuel - 1, by omega⟩
    obtain ⟨t1, t2⟩ := timerTick_pos s (by omega)
    rw [waitCCIE, if_pos hset, ih f (timerTick s) (by rw [t1]; exact hset) (by omega) (by omega)]
    rfl

theorem waitCCIE_none (fuel : Nat) : ∀ s : State, s.TACCTL0 &&& CCIE ≠ 0 →
    fuel ≤ s.txBitCnt → waitCCIE fuel s = none := by
  induction fuel with
  | zero => intro s hset _; simp [waitCCIE, hset]
  | succ f ih =>
    intro s hset hle
    obtain ⟨t1, t2⟩ := timerTick_pos s (by omega)
    rw [waitCCIE, if_pos hset]
    exact ih (timerTick s) (by rw [t1]; exact hset) (by omega)

/-- The state in which a frame of `b`, loaded with the bit counter at 10, leaves
the transmitter after its eleven timer interrupts. -/
theorem frame_done (s : State) (b : Nat) (hb : b < 256) (hcnt : s.txBitCnt = 10) :
    (timerTick^[11] (txLoad s b)).pinTrace = s.pinTrace ++ frameTrace b ∧
    (timerTick^[11] (txLoad s b)).txData = 0 ∧
    Idle (timerTick^[11] (txLoad s b)) ∧
    txPin (timerTick^[11] (txLoad s b)) = 1 ∧
    Frame s (timerTick^[11] (txLoad s b)) ∧
    (timerTick^[11] (txLoad s b)).txCalls = s.txCalls := by
  obtain ⟨hd, hc⟩ := txLoad_txData s b hb
  obtain ⟨fl, cl, _, _⟩ := txLoad_frame s b
  obtain ⟨i1, i2, i3, _, i5, i6, i7⟩ := timerTick_iterate 10 (txLoad s b) (by omega)
  have hz : (timerTick^[10] (txLoad s b)).txBitCnt = 0 := by rw [i3]; omega
  obtain ⟨z1, z2⟩ := timerTick_zero _ hz
  obtain ⟨k1, k2, k3, _⟩ := timerTick_zero_keeps _ hz
  obtain ⟨f1, c1⟩ := timerTick_frame (timerTick^[10] (txLoad s b))
  have hpin10 : txPin (timerTick^[10] (txLoad s b)) = 1 := by
    rw [i5 (by decide), hd]; norm_num; omega
  have hstep : timerTick^[11] (txLoad s b) = timerTick (timerTick^[10] (txLoad s b)) :=
    Function.iterate_succ_apply' timerTick 10 (txLoad s b)
  have hps : (txLoad s b).pinTrace = s.pinTrace := rfl
  have hbits : (List.range 10).map (fun i => (2 * b + 512) / 2 ^ i % 2) = frameLevels b := by
    simp [List.range, List.range.loop, frameLevels]
    omega
  rw [hstep]
  refine ⟨?_, ?_, ⟨z1, z2⟩, by rw [k2, hpin10], fl.trans (i6.trans f1), by rw [c1, i7, cl]⟩
  · rw [k1, hpin10, i1, hd, hps, hbits, frameTrace, List.append_assoc]
  · rw [k3, i2, hd]; norm_num; omega

theorem TimerA_UART_tx_idle (fuel : Nat) (s : State) (b : Nat) (hf : 10 < fuel)
    (hidle : Idle s) :
    TimerA_UART_tx fuel s b =
      some (timerTick^[11] (txLoad { s with txCalls := s.txCalls ++ [b] } b)) := by
  have h1 : waitCCIE fuel { s with txCalls := s.txCalls ++ [b] } =
      some { s with txCalls := s.txCalls ++ [b] } := waitCCIE_clear _ _ hidle.1
  obtain ⟨_, _, bl, sl⟩ := txLoad_frame { s with txCalls := s.txCalls ++ [b] } b
  have h2 := waitCCIE_armed 10 fuel (txLoad { s with txCalls := s.txCalls ++ [b] } b) sl
    (by rw [bl]; exact hidle.2) hf
  simp [TimerA_UART_tx, h1, h2]

theorem ISR_Timer_A_expire_zero (s : State) (h : s.txBitCnt = 0) :
    (ISR_Timer_A_expire s).P1OUT = s.P1OUT ∧ (ISR_Timer_A_expire s).txData = s.txData ∧
    (ISR_Timer_A_expire s).TACCTL0 &&& CCIE = 0 ∧ (ISR_Timer_A_expire s).txBitCnt = 10 := by
  refine ⟨?_, ?_, ?_, ?_⟩
  · simp [ISR_Timer_A_expire, h]
  · simp [ISR_Timer_A_expire, h]
  · simp only [ISR_Timer_A_expire, if_pos h]
    exact and_clear_and _ _ _ (by decide)
  · simp [ISR_Timer_A_expire, h]

theorem ISR_Timer_A_expire_iterate (n : Nat) : ∀ s : State, n ≤ s.txBitCnt →
    (ISR_Timer_A_expire^[n] s).txData = s.txData / 2 ^ n ∧
    (ISR_Timer_A_expire^[n] s).txBitCnt = s.txBitCnt - n ∧
    (ISR_Timer_A_expire^[n] s).TACCTL0 = s.TACCTL0 := by
  induction n with
  | zero => intro s _; exact ⟨by simp, rfl, rfl⟩
  | succ n ih =>
    intro s hn
    obtain ⟨i2, i3, i4⟩ := ih s (by omega)
    have h0 : (ISR_Timer_A_expire^[n] s).txBitCnt ≠ 0 := by rw [i3]; omega
    obtain ⟨d1, d2⟩ := txData_ISR_Timer_A_expire _ h0
    have hT : (ISR_Timer_A_expire (ISR_Timer_A_expire^[n] s)).TACCTL0 =
        (ISR_Timer_A_expire^[n] s).TACCTL0 := (timerTick_pos _ h0).1
    rw [Function.iterate_succ_apply']
    refine ⟨?_, ?_, ?_⟩
    · rw [d1, i2, Nat.div_div_eq_div_mul, pow_succ]
    · rw [d2, i3]; omega
    · rw [hT, i4]

/-- C17: let a frame of byte `b` be loaded with the bit counter at 10 (the
interrupt is then enabled).  Each of the first ten runs of `ISR_Timer_A_expire`
puts the current least-significant bit of the frame on the pin, shifts the
frame right by one, decrements the counter and leaves the interrupt enabled.
After them the frame register is 0, the counter is 0 and the pin is high.  The
11th run leaves the pin and the frame alone, disables the interrupt and reloads
the counter to 10.  So the busy wait of `TimerA_UART_tx` does not end within ten
interrupts and ends with the eleventh, in the idle state. -/
theorem frame_eleven_ticks (s : State) (b : Nat) (hb : b < 256) (hcnt : s.txBitCnt = 10) :
    (txLoad s b).txBitCnt = 10 ∧ (txLoad s b).TACCTL0 &&& CCIE ≠ 0 ∧
    (∀ k, k < 10 →
      txPin (ISR_Timer_A_expire^[k + 1] (txLoad s b)) =
        (ISR_Timer_A_expire^[k] (txLoad s b)).txData % 2 ∧
      (ISR_Timer_A_expire^[k + 1] (txLoad s b)).txData =
        (ISR_Timer_A_expire^[k] (txLoad s b)).txData / 2 ∧
      (ISR_Timer_A_expire^[k] (txLoad s b)).txBitCnt = 10 - k ∧
      (ISR_Timer_A_expire^[k + 1] (txLoad s b)).txBitCnt = 10 - k - 1 ∧
      (ISR_Timer_A_expire^[k + 1] (txLoad s b)).TACCTL0 &&& CCIE ≠ 0) ∧
    (ISR_Timer_A_expire^[10] (txLoad s b)).txData = 0 ∧
    txPin (ISR_Timer_A_expire^[10] (txLoad s b)) = 1 ∧
    (ISR_Timer_A_expire^[11] (txLoad s b)).P1OUT = (ISR_Timer_A_expire^[10] (txLoad s b)).P1OUT ∧
    (ISR_Timer_A_expire^[11] (txLoad s b)).txData = 0 ∧
    (ISR_Timer_A_expire^[11] (txLoad s b)).TACCTL0 &&& CCIE = 0 ∧
    (ISR_Timer_A_expire^[11] (txLoad s b)).txBitCnt = 10 ∧
    waitCCIE 10 (txLoad s b) = none ∧
    (∀ fuel, 10 < fuel → ∃ s1, waitCCIE fuel (txLoad s b) = some s1 ∧ Idle s1 ∧
      s1.txData = 0 ∧ txPin s1 = 1) := by
  obtain ⟨hd, hc⟩ := txLoad_txData s b hb
  obtain ⟨_, _, bl, sl⟩ := txLoad_frame s b
  have hc10 : (txLoad s b).txBitCnt = 10 := by rw [bl, hcnt]
  obtain ⟨j2, j3, j4⟩ := ISR_Timer_A_expire_iterate 10 (txLoad s b) (by omega)
  have hz : (ISR_Timer_A_expire^[10] (txLoad s b)).txBitCnt = 0 := by rw [j3]; omega
  have hd10 : (ISR_Timer_A_expire^[10] (txLoad s b)).txData = 0 := by
    rw [j2, hd]; norm_num; omega
  have h11 : ISR_Timer_A_expire^[11] (txLoad s b) =
      ISR_Timer_A_expire (ISR_Timer_A_expire^[10] (txLoad s b)) :=
    Function.iterate_succ_apply' ISR_Timer_A_expire 10 (txLoad s b)
  have hpin10 : txPin (ISR_Timer_A_expire^[10] (txLoad s b)) = 1 := by
    obtain ⟨k2, k3, _⟩ := ISR_Timer_A_expire_iterate 9 (txLoad s b) (by omega)
    have h9 : (ISR_Timer_A_expire^[9] (txLoad s b)).txBitCnt ≠ 0 := by rw [k3]; omega
    have e10 : ISR_Timer_A_expire^[10] (txLoad s b) =
        ISR_Timer_A_expire (ISR_Timer_A_expire^[9] (txLoad s b)) :=
      Function.iterate_succ_apply' ISR_Timer_A_expire 9 (txLoad s b)
    rw [e10, txPin_ISR_Timer_A_expire _ h9, k2, hd]; norm_num; omega
  refine ⟨hc10, sl, ?_, hd10, hpin10, ?_, ?_, ?_, ?_, waitCCIE_none 10 _ sl (by omega), ?_⟩
  · intro k hk
    obtain ⟨i2, i3, i4⟩ := ISR_Timer_A_expire_iterate k (txLoad s b) (by omega)
    have h0 : (ISR_Timer_A_expire^[k] (txLoad s b)).txBitCnt ≠ 0 := by rw [i3]; omega
    obtain ⟨d1, d2⟩ := txData_ISR_Timer_A_expire _ h0
    have hT := (timerTick_pos _ h0).1
    have hT2 : (ISR_Timer_A_expire (ISR_Timer_A_expire^[k] (txLoad s b))).TACCTL0 =
        (ISR_Timer_A_expire^[k] (txLoad s b)).TACCTL0 := hT
    rw [Function.iterate_succ_apply']
    refine ⟨txPin_ISR_Timer_A_expire _ h0, d1, by rw [i3, hc10], by rw [d2, i3, hc10], ?_⟩
    rw [hT2, i4]; exact sl
  · rw [h11]; exact (ISR_Timer_A_expire_zero _ hz).1
  · rw [h11, (ISR_Timer_A_expire_zero _ hz).2.1, hd10]
  · rw [h11]; exact (ISR_Timer_A_expire_zero _ hz).2.2.1
  · rw [h11]; exact (ISR_Timer_A_expire_zero _ hz).2.2.2
  · intro fuel hf
    obtain ⟨_, f2, f3, f4, _, _⟩ := frame_done s b hb hcnt
    exact ⟨_, waitCCIE_armed 10 fuel (txLoad s b) sl hc10 hf, f3, f2, f4⟩

theorem frame_eleven_ticks_witness :
    waitCCIE 10 (txLoad bootState 0x41) = none ∧
    (∀ fuel, 10 < fuel → ∃ s1, waitCCIE fuel (txLoad bootState 0x41) = some s1 ∧ Idle s1 ∧
      s1.txData = 0 ∧ txPin s1 = 1) :=
  (frame_eleven_ticks bootState 0x41 (by decide) (by decide)).2.2.2.2.2.2.2.2.2

theorem TimerA_UART_tx_trace (fuel : Nat) (s : State) (b : Nat) (hf : 10 < fuel)
    (hidle : Idle s) (hb : b < 256) :
    ∃ s1, TimerA_UART_tx fuel s b = some s1 ∧ Idle s1 ∧ txPin s1 = 1 ∧ s1.txData = 0 ∧
      s1.pinTrace = s.pinTrace ++ frameTrace b ∧ s1.txCalls = s.txCalls ++ [b] ∧
      Frame s s1 := by
  obtain ⟨f1, f2, f3, f4, f5, f6⟩ :=
    frame_done { s with txCalls := s.txCalls ++ [b] } b hb hidle.2
  exact ⟨_, TimerA_UART_tx_idle fuel s b hf hidle, f3, f4, f2, f1, f6,
    ⟨f5.1, f5.2, f5.3, f5.4, f5.5, f5.6, f5.7, f5.8, f5.9, f5.10, f5.11⟩⟩

theorem TimerA_UART_tx_short (fuel : Nat) (s : State) (b : Nat) (hf : fuel ≤ 10)
    (hidle : Idle s) : TimerA_UART_tx fuel s b = none := by
  have h1 : waitCCIE fuel { s with txCalls := s.txCalls ++ [b] } =
      some { s with txCalls := s.txCalls ++ [b] } := waitCCIE_clear _ _ hidle.1
  obtain ⟨_, _, bl, sl⟩ := txLoad_frame { s with txCalls := s.txCalls ++ [b] } b
  have h2 := waitCCIE_none fuel (txLoad { s with txCalls := s.txCalls ++ [b] } b) sl
    (by rw [bl]; show fuel ≤ s.txBitCnt; rw [hidle.2]; exact hf)
  simp [TimerA_UART_tx, h1, h2]

/-- C13, as the code has it: `TimerA_UART_tx` ends with a second busy wait on the
interrupt-enable bit, so a call made with the transmitter idle returns only after
the eleven timer interrupts of its own frame (with fewer it does not return).
When it returns the compare interrupt is disabled, the bit counter is back at 10,
the frame register is empty and all ten bits have been put on the pin during the
call; the first busy wait of a second call then passes at once. -/
theorem tx_returns_after_frame (fuel : Nat) (s : State) (b : Nat) (hf : 10 < fuel)
    (hidle : Idle s) (hb : b < 256) :
    ∃ s1, TimerA_UART_tx fuel s b = some s1 ∧
      s1.TACCTL0 &&& CCIE = 0 ∧ s1.txBitCnt = 10 ∧ s1.txData = 0 ∧
      s1.pinTrace = s.pinTrace ++ frameLevels b ++ [1] ∧
      (∀ f, f ≤ 10 → TimerA_UART_tx f s b = none) ∧
      (∀ f, waitCCIE f s1 = some s1) := by
  obtain ⟨s1, e1, i1, _, d1, p1, _, _⟩ := TimerA_UART_tx_trace fuel s b hf hidle hb
  refine ⟨s1, e1, i1.1, i1.2, d1, ?_, fun f hle => TimerA_UART_tx_short f s b hle hidle,
    fun f => waitCCIE_clear f s1 i1.1⟩
  rw [p1, frameTrace, List.append_assoc]

theorem tx_returns_after_frame_witness :
    ∃ s1, TimerA_UART_tx 11 bootState 0x41 = some s1 ∧
      s1.TACCTL0 &&& CCIE = 0 ∧ s1.txBitCnt = 10 ∧ s1.txData = 0 ∧
      s1.pinTrace = bootState.pinTrace ++ frameLevels 0x41 ++ [1] ∧
      (∀ f, f ≤ 10 → TimerA_UART_tx f bootState 0x41 = none) ∧
      (∀ f, waitCCIE f s1 = some s1) :=
  tx_returns_after_frame 11 bootState 0x41 (by decide) ⟨by decide, by decide⟩ (by decide)

/-- C13 as stated fails: when `TimerA_UART_tx(0x41)` returns, the compare
interrupt is disabled and the whole frame is already on the pin trace; with only
ten timer interrupts the call has not returned. -/
theorem tx_frame_not_in_flight :
    ∃ s1, TimerA_UART_tx 11 bootState 0x41 = some s1 ∧
      ¬ (s1.TACCTL0 &&& CCIE ≠ 0) ∧
      s1.pinTrace = [0, 1, 0, 0, 0, 0, 0, 1, 0, 1, 1] ∧
      TimerA_UART_tx 10 bootState 0x41 = none := by
  obtain ⟨s1, e1, i1, _, _, p1, _, _⟩ :=
    TimerA_UART_tx_trace 11 bootState 0x41 (by decide) ⟨by decide, by decide⟩ (by decide)
  refine ⟨s1, e1, fun h => h i1.1, ?_, TimerA_UART_tx_short 10 bootState 0x41 (by decide)
    ⟨by decide, by decide⟩⟩
  rw [p1]; decide

theorem TimerA_UART_print_trace (fuel : Nat) (hf : 10 < fuel) (rest : List Nat) :
    ∀ (l : List Nat) (s : State), (∀ c ∈ l, c ≠ 0 ∧ c < 256) → Idle s →
      ∃ s1, TimerA_UART_print fuel s (l ++ 0 :: rest) = some s1 ∧ Idle s1 ∧
        s1.txCalls = s.txCalls ++ l ∧ s1.pinTrace = s.pinTrace ++ framesOf l ∧
        (l = [] → s1 = s) := by
  intro l
  induction l with
  | nil =>
    intro s _ hidle
    exact ⟨s, by simp [TimerA_UART_print], hidle, by simp, by simp [framesOf], fun _ => rfl⟩
  | cons c l ih =>
    intro s hl hidle
    obtain ⟨hc0, hc⟩ := hl c (List.mem_cons_self _ _)
    obtain ⟨s1, e1, i1, _, _, p1, c1, _⟩ := TimerA_UART_tx_trace fuel s c hf hidle hc
    obtain ⟨s2, e2, i2, c2, p2, _⟩ := ih s1 (fun x hx => hl x (List.mem_cons_of_mem _ hx)) i1
    refine ⟨s2, ?_, i2, ?_, ?_, fun h => absurd h (List.cons_ne_nil _ _)⟩
    · simp [TimerA_UART_print, hc0, e1, e2]
    · rw [c2, c1]; simp
    · rw [p2, p1, framesOf, List.append_assoc]

/-- C14: for a character sequence `l` (bytes, none of them NUL) followed by a
NUL, `TimerA_UART_print` started with the transmitter idle returns, has called
`TimerA_UART_tx` exactly for the characters of `l`, once each and in order, and
the pin trace it leaves is the frames of those characters one after the other;
for the empty sequence nothing is transmitted and the state is unchanged. -/
theorem print_in_order (fuel : Nat) (s : State) (l rest : List Nat) (hf : 10 < fuel)
    (hidle : Idle s) (hl : ∀ c ∈ l, c ≠ 0 ∧ c < 256) :
    ∃ s1, TimerA_UART_print fuel s (l ++ 0 :: rest) = some s1 ∧
      s1.txCalls = s.txCalls ++ l ∧
      s1.pinTrace = s.pinTrace ++ framesOf l ∧
      (∀ c cs, framesOf (c :: cs) = (frameLevels c ++ [1]) ++ framesOf cs) ∧
      (l = [] → s1 = s) ∧
      TimerA_UART_print fuel s (0 :: rest) = some s := by
  obtain ⟨s1, e1, _, c1, p1, n1⟩ := TimerA_UART_print_trace fuel hf rest l s hl hidle
  exact ⟨s1, e1, c1, p1, fun _ _ => rfl, n1, by simp [TimerA_UART_print]⟩

theorem print_in_order_witness :
    ∃ s1, TimerA_UART_print 11 bootState ([0x41, 0x42] ++ 0 :: []) = some s1 ∧
      s1.txCalls = bootState.txCalls ++ [0x41, 0x42] ∧
      s1.pinTrace = bootState.pinTrace ++ framesOf [0x41, 0x42] ∧
      (∀ c cs, framesOf (c :: cs) = (frameLevels c ++ [1]) ++ framesOf cs) ∧
      ([0x41, 0x42] = ([] : List Nat) → s1 = bootState) ∧
      TimerA_UART_print 11 bootState (0 :: []) = some bootState :=
  print_in_order 11 bootState [0x41, 0x42] [] (by decide) ⟨by decide, by decide⟩ (by decide)

/-! ## Idle line -/

theorem xor_and_of_disjoint (x m k : Nat) (h : m &&& k = 0) : (x ^^^ m) &&& k = x &&& k := by
  apply Nat.eq_of_testBit_eq
  intro i
  have hi : (m &&& k).testBit i = false := by rw [h]; simp
  rw [Nat.testBit_and] at hi
  simp only [Nat.testBit_and, Nat.testBit_xor]
  cases hm : m.testBit i <;> cases hk : k.testBit i <;> simp_all

theorem or_and_of_disjoint (x m k : Nat) (h : m &&& k = 0) : (x ||| m) &&& k = x &&& k := by
  rw [Nat.and_distrib_right, h, Nat.or_zero]

theorem stop_bit_loaded (b : Nat) : ((b ||| 256) <<< 1 % 65536) / 2 ^ 9 % 2 = 1 := by
  have h : ((b ||| 256) <<< 1 % 2 ^ 16).testBit 9 = true := by
    rw [Nat.testBit_mod_two_pow, Nat.testBit_shiftLeft, Nat.testBit_or]
    simp
    right
    decide
  rw [Nat.testBit_to_div_mod] at h
  simpa using h

theorem txPin_initPorts (s : State) : txPin (initPorts s) = 1 := by
  simp [txPin, initPorts, UART_TX_PIN, or_and_self_mask, BIT1]

theorem txPin_mainInit (r : State) : txPin (mainInit r) = 1 := by
  have h : (mainInit r).P1OUT &&& UART_TX_PIN = 2 := by
    show ((initPorts (powerOn r)).P1OUT ||| GREEN_LED) &&& UART_TX_PIN = 2
    rw [or_and_of_disjoint _ _ _ (by decide)]
    simp [initPorts, UART_TX_PIN, or_and_self_mask, BIT1]
  simp [txPin, h]

theorem txPin_ISR_portChange (s : State) : txPin (ISR_portChange s) = txPin s := by
  have h1 : ∀ x : Nat, (x ^^^ RED_LED) &&& UART_TX_PIN = x &&& UART_TX_PIN :=
    fun x => xor_and_of_disjoint x _ _ (by decide)
  have h2 : ∀ x : Nat, (x ^^^ GREEN_LED) &&& UART_TX_PIN = x &&& UART_TX_PIN :=
    fun x => xor_and_of_disjoint x _ _ (by decide)
  simp only [ISR_portChange, txPin]
  split_ifs <;> simp_all

theorem uartInv_mainInit (r : State) : UartInv (mainInit r) := by
  obtain ⟨⟨hidle, _⟩, _⟩ := mainInit_spec r
  exact ⟨fun _ => ⟨txPin_mainInit r, hidle.2⟩, fun h => absurd hidle.1 h⟩

theorem uartInv_timerTick (s : State) (h : UartInv s) (hset : s.TACCTL0 &&& CCIE ≠ 0) :
    UartInv (timerTick s) := by
  obtain ⟨h0, hpos⟩ := h.2 hset
  by_cases hz : s.txBitCnt = 0
  · obtain ⟨z1, z2⟩ := timerTick_zero s hz
    obtain ⟨_, k2, _, _⟩ := timerTick_zero_keeps s hz
    exact ⟨fun _ => ⟨by rw [k2]; exact h0 hz, z2⟩, fun hc => absurd z1 hc⟩
  · obtain ⟨t1, t2⟩ := timerTick_pos s hz
    obtain ⟨_, p2, p3⟩ := timerTick_pinTrace s
    obtain ⟨d1, _⟩ := txData_ISR_Timer_A_expire s hz
    have hbit := hpos (by omega)
    refine ⟨fun hc => absurd (by rw [← t1]; exact hc) hset, fun _ => ⟨?_, ?_⟩⟩
    · intro hk
      have h1 : s.txBitCnt = 1 := by omega
      rw [p2, txPin_ISR_Timer_A_expire s hz]
      rw [h1] at hbit
      simpa using hbit
    · intro hk
      rw [p3, d1, t2, Nat.div_div_eq_div_mul]
      have e : 2 * 2 ^ (s.txBitCnt - 1 - 1) = 2 ^ (s.txBitCnt - 1) := by
        rw [← pow_succ']
        congr 1
        omega
      rw [e]; exact hbit

theorem uartInv_txLoad (s : State) (b : Nat) (h : UartInv s) (hclear : s.TACCTL0 &&& CCIE = 0) :
    UartInv (txLoad s b) := by
  obtain ⟨_, _, bl, sl⟩ := txLoad_frame s b
  have hcnt : (txLoad s b).txBitCnt = 10 := by rw [bl]; exact (h.1 hclear).2
  refine ⟨fun hc => absurd hc sl, fun _ => ⟨fun hz => ?_, fun _ => ?_⟩⟩
  · rw [hcnt] at hz; exact absurd hz (by decide)
  · rw [hcnt]; exact stop_bit_loaded b

theorem uartInv_waitCCIE (fuel : Nat) : ∀ s s1 : State, UartInv s →
    waitCCIE fuel s = some s1 → UartInv s1 ∧ s1.TACCTL0 &&& CCIE = 0 := by
  induction fuel with
  | zero =>
    intro s s1 h hw
    simp only [waitCCIE] at hw
    split_ifs at hw with hc
    cases hw
    exact ⟨h, by simpa using hc⟩
  | succ fuel ih =>
    intro s s1 h hw
    simp only [waitCCIE] at hw
    split_ifs at hw with hc
    · exact ih _ _ (uartInv_timerTick s h hc) hw
    · cases hw
      exact ⟨h, by simpa using hc⟩

theorem uartInv_tx (fuel : Nat) (s s1 : State) (b : Nat) (h : UartInv s)
    (hw : TimerA_UART_tx fuel s b = some s1) : UartInv s1 := by
  simp only [TimerA_UART_tx, Option.bind_eq_some] at hw
  obtain ⟨s2, h2, h3⟩ := hw
  obtain ⟨i2, c2⟩ := uartInv_waitCCIE fuel { s with txCalls := s.txCalls ++ [b] } s2 h h2
  exact (uartInv_waitCCIE fuel _ s1 (uartInv_txLoad s2 b i2 c2) h3).1

theorem uartInv_step (s s1 : State) (e : UartEvent) (h : UartInv s)
    (hs : uartStep s e = some s1) : UartInv s1 := by
  cases e with
  | call fuel b => exact uartInv_tx fuel s s1 b h hs
  | arm b =>
    simp only [uartStep] at hs
    split_ifs at hs with hc
    cases hs
    exact uartInv_txLoad _ b h (by simpa using hc)
  | timer =>
    simp only [uartStep] at hs
    split_ifs at hs with hc
    cases hs
    exact uartInv_timerTick s h hc
  | port ifg =>
    simp only [uartStep, Option.some.injEq] at hs
    subst hs
    have hp : txPin (ISR_portChange { s with P1IFG := ifg }) = txPin s :=
      txPin_ISR_portChange { s with P1IFG := ifg }
    have hT : (ISR_portChange { s with P1IFG := ifg }).TACCTL0 = s.TACCTL0 ∧
        (ISR_portChange { s with P1IFG := ifg }).txBitCnt = s.txBitCnt ∧
        (ISR_portChange { s with P1IFG := ifg }).txData = s.txData := by
      simp only [ISR_portChange]
      split_ifs <;> exact ⟨rfl, rfl, rfl⟩
    unfold UartInv
    rw [hp, hT.1, hT.2.1, hT.2.2]
    exact h
  | wdt =>
    simp only [uartStep, Option.some.injEq] at hs
    subst hs
    have hT : txPin (ISR_WDT_expire s) = txPin s ∧
        (ISR_WDT_expire s).TACCTL0 = s.TACCTL0 ∧
        (ISR_WDT_expire s).txBitCnt = s.txBitCnt ∧
        (ISR_WDT_expire s).txData = s.txData := by
      simp only [ISR_WDT_expire, txPin]
      split_ifs <;> exact ⟨rfl, rfl, rfl, rfl⟩
    unfold UartInv
    rw [hT.1, hT.2.1, hT.2.2.1, hT.2.2.2]
    exact h

theorem uartInv_run (evs : List UartEvent) : ∀ s s1 : State, UartInv s →
    uartRun s evs = some s1 → UartInv s1 := by
  induction evs with
  | nil => intro s s1 h hr; simp only [uartRun, Option.some.injEq] at hr; subst hr; exact h
  | cons e evs ih =>
    intro s s1 h hr
    simp only [uartRun, Option.bind_eq_some] at hr
    obtain ⟨s2, h2, h3⟩ := hr
    exact ih s2 s1 (uartInv_step s s2 e h h2) h3

/-- C15: right after `initPorts` the transmit pin is high, and it still is when
`main` enters its loop, before any call of `TimerA_UART_tx`.  In every state
reached from there by calls of `TimerA_UART_tx` (whole, or up to the arming of
the timer), timer interrupts, PORT1 handler runs and watchdog ticks, the pin is
high whenever the compare interrupt is disabled. -/
theorem idle_line_high :
    (∀ s : State, txPin (initPorts s) = 1) ∧
    (∀ r : State, txPin (mainInit r) = 1 ∧ (mainInit r).txCalls = []) ∧
    (∀ (r : State) (evs : List UartEvent) (s : State),
      uartRun (mainInit r) evs = some s → s.TACCTL0 &&& CCIE = 0 → txPin s = 1) :=
  ⟨txPin_initPorts, fun r => ⟨txPin_mainInit r, rfl⟩,
    fun r evs s hr hc => ((uartInv_run evs _ s (uartInv_mainInit r) hr).1 hc).1⟩

/-! ## Reporting cadence -/

theorem port_quiet (s : State) (ifg : Nat) (h : LoopInv s) :
    LoopInv (ISR_portChange { s with P1IFG := ifg }) ∧
    (ISR_portChange { s with P1IFG := ifg }).secCounter = s.secCounter ∧
    (ISR_portChange { s with P1IFG := ifg }).has_send_data = s.has_send_data ∧
    (ISR_portChange { s with P1IFG := ifg }).txCalls = s.txCalls := by
  refine ⟨ISR_portChange_loopInv { s with P1IFG := ifg } h, (ISR_portChange_effect s ifg).2.1, ?_,
    ?_⟩
  · simp only [ISR_portChange]; split_ifs <;> rfl
  · simp only [ISR_portChange]; split_ifs <;> rfl

theorem loop_report (s : State) (f : Nat) (h : LoopInv s) (hf : 10 < f)
    (heven : s.secCounter % 2 = 0) (hflag : s.has_send_data = 0) :
    ∃ s1, mainLoopBody f s = some s1 ∧ LoopInv s1 ∧ s1.secCounter = s.secCounter ∧
      s1.has_send_data = 1 ∧
      s1.txCalls = s.txCalls ++ reportLine s.secCounter s.cpmCurrentCounter s.cpmCounter
        (s.cpmCounter * TUBE_FACTOR % 65536) := by
  obtain ⟨hidle, h1, h2, h3, h4⟩ := h
  obtain ⟨s1, e1, c1, _, g1, _, _, q1, g, i1, _⟩ :=
    mainLoopBody_report f s hf (by rw [hidle.2]; exact hf) heven hflag h1 h2 h3 h4
  exact ⟨s1, e1, ⟨i1 hidle, g⟩, q1, g1, c1⟩

theorem loop_quiet (s : State) (f : Nat) (h : LoopInv s)
    (hc : ¬ (s.secCounter % 2 = 0 ∧ s.has_send_data = 0)) :
    ∃ s1, mainLoopBody f s = some s1 ∧ LoopInv s1 ∧ s1.secCounter = s.secCounter ∧
      s1.txCalls = s.txCalls ∧
      (s.secCounter % 2 = 1 → s1.has_send_data = 0) ∧
      (s.secCounter % 2 = 0 → s1.has_send_data = s.has_send_data) := by
  refine ⟨_, mainLoopBody_idle f s hc, ?_⟩
  by_cases hodd : s.secCounter % 2 = 0
  · have : ¬ (s.secCounter % 2 ≠ 0) := fun h1 => h1 hodd
    rw [if_neg this]
    exact ⟨h, rfl, rfl, fun h1 => by omega, fun _ => rfl⟩
  · rw [if_pos hodd]
    exact ⟨h, rfl, rfl, fun _ => rfl, fun h1 => absurd h1 hodd⟩

theorem phase_sent (p : List Event) : ∀ s : State, LoopInv s → ticks p = 0 →
    s.secCounter % 2 = 0 → s.has_send_data ≠ 0 →
    ∃ s1, run s p = some s1 ∧ LoopInv s1 ∧ s1.secCounter = s.secCounter ∧
      s1.txCalls = s.txCalls ∧ s1.has_send_data = s.has_send_data := by
  induction p with
  | nil => intro s h _ _ _; exact ⟨s, rfl, h, rfl, rfl, rfl⟩
  | cons e p ih =>
    intro s h ht heven hflag
    cases e with
    | port ifg =>
      obtain ⟨q1, q2, q3, q4⟩ := port_quiet s ifg h
      obtain ⟨s2, r2, i2, a2, b2, c2⟩ := ih _ q1 (by simpa [ticks] using ht)
        (by rw [q2]; exact heven) (by rw [q3]; exact hflag)
      exact ⟨s2, by simp [run, step, r2], i2, a2.trans q2, b2.trans q4, c2.trans q3⟩
    | wdt => simp [ticks] at ht
    | loop f =>
      obtain ⟨s1, e1, i1, a1, b1, _, c1⟩ := loop_quiet s f h (fun hc => hflag hc.2)
      obtain ⟨s2, r2, i2, a2, b2, c2⟩ := ih s1 i1 (by simpa [ticks] using ht)
        (by rw [a1]; exact heven) (by rw [c1 heven]; exact hflag)
      exact ⟨s2, by simp [run, step, e1, r2], i2, a2.trans a1, b2.trans b1,
        c2.trans (c1 heven)⟩

theorem phase_even (p : List Event) : ∀ s : State, LoopInv s → ticks p = 0 →
    (∀ f, Event.loop f ∈ p → 10 < f) → s.secCounter % 2 = 0 → s.has_send_data = 0 →
    ∃ s1, run s p = some s1 ∧ LoopInv s1 ∧ s1.secCounter = s.secCounter ∧
      ((∃ f, Event.loop f ∈ p) →
        s1.has_send_data = 1 ∧
        ∃ cur, s1.txCalls = s.txCalls ++ reportLine s.secCounter cur s.cpmCounter
          (s.cpmCounter * TUBE_FACTOR % 65536)) := by
  induction p with
  | nil =>
    intro s h _ _ _ _
    exact ⟨s, rfl, h, rfl, fun hl => by simp at hl⟩
  | cons e p ih =>
    intro s h ht hfuel heven hflag
    cases e with
    | port ifg =>
      obtain ⟨q1, q2, q3, q4⟩ := port_quiet s ifg h
      have q5 := (ISR_portChange_effect s ifg).1
      obtain ⟨s2, r2, i2, a2, b2⟩ := ih _ q1 (by simpa [ticks] using ht)
        (fun f hm => hfuel f (List.mem_cons_of_mem _ hm))
        (by rw [q2]; exact heven) (by rw [q3]; exact hflag)
      refine ⟨s2, by simp [run, step, r2], i2, a2.trans q2, ?_⟩
      intro hl
      have hl2 : ∃ f, Event.loop f ∈ p := by
        obtain ⟨f, hm⟩ := hl
        simp at hm
        exact ⟨f, hm⟩
      obtain ⟨g1, cur, g2⟩ := b2 hl2
      rw [q2, q4, q5] at g2
      exact ⟨g1, cur, g2⟩
    | wdt => simp [ticks] at ht
    | loop f =>
      obtain ⟨s1, e1, i1, a1, b1, c1⟩ :=
        loop_report s f h (hfuel f (List.mem_cons_self _ _)) heven hflag
      obtain ⟨s2, r2, i2, a2, b2, c2⟩ := phase_sent p s1 i1 (by simpa [ticks] using ht)
        (by rw [a1]; exact heven) (by rw [b1]; decide)
      refine ⟨s2, by simp [run, step, e1, r2], i2, a2.trans a1, fun _ => ⟨c2.trans b1, ?_⟩⟩
      exact ⟨s.cpmCurrentCounter, by rw [b2, c1]⟩

theorem phase_odd (p : List Event) : ∀ s : State, LoopInv s → ticks p = 0 →
    s.secCounter % 2 = 1 →
    ∃ s1, run s p = some s1 ∧ LoopInv s1 ∧ s1.secCounter = s.secCounter ∧
      s1.txCalls = s.txCalls ∧
      ((s.has_send_data = 0 ∨ ∃ f, Event.loop f ∈ p) → s1.has_send_data = 0) := by
  induction p with
  | nil => intro s h _ _; exact ⟨s, rfl, h, rfl, rfl, fun hl => by simpa using hl⟩
  | cons e p ih =>
    intro s h ht hodd
    cases e with
    | port ifg =>
      obtain ⟨q1, q2, q3, q4⟩ := port_quiet s ifg h
      obtain ⟨s2, r2, i2, a2, b2, c2⟩ := ih _ q1 (by simpa [ticks] using ht)
        (by rw [q2]; exact hodd)
      refine ⟨s2, by simp [run, step, r2], i2, a2.trans q2, b2.trans q4, ?_⟩
      intro hl
      apply c2
      rcases hl with hl | ⟨f, hm⟩
      · exact Or.inl (by rw [q3]; exact hl)
      · simp at hm
        exact Or.inr ⟨f, hm⟩
    | wdt => simp [ticks] at ht
    | loop f =>
      obtain ⟨s1, e1, i1, a1, b1, c1, _⟩ := loop_quiet s f h (fun hc => by omega)
      obtain ⟨s2, r2, i2, a2, b2, c2⟩ := ih s1 i1 (by simpa [ticks] using ht)
        (by rw [a1]; exact hodd)
      exact ⟨s2, by simp [run, step, e1, r2], i2, a2.trans a1, b2.trans b1,
        fun _ => c2 (Or.inl (c1 hodd))⟩

theorem ISR_WDT_expire_flag (s : State) :
    (ISR_WDT_expire s).has_send_data = s.has_send_data := by
  simp only [ISR_WDT_expire]; split_ifs <;> rfl

theorem run_phase_cons (s s1 : State) (p : List Event) (ps : List (List Event))
    (h : run s p = some s1) :
    run s (phaseTrace (p :: ps)) = run (ISR_WDT_expire s1) (phaseTrace ps) := by
  rw [phaseTrace, run_append, h]
  simp [run, step]

theorem cadence_core (ps : List (List Event)) : ∀ s : State, LoopInv s → s.secCounter < 60 →
    (s.secCounter % 2 = 0 → s.has_send_data = 0) → (∀ p ∈ ps, GoodPhase p) →
    ∃ outs sf, phaseOutputs s ps = some outs ∧ run s (phaseTrace ps) = some sf ∧
      outs.length = ps.length ∧
      ∀ k sec bytes, outs[k]? = some (sec, bytes) →
        sec = (s.secCounter + k) % 60 ∧
        (sec % 2 = 0 →
          ∃ cur cpm, bytes = reportLine sec cur cpm (cpm * TUBE_FACTOR % 65536)) ∧
        (sec % 2 = 1 → bytes = []) := by
  induction ps with
  | nil =>
    intro s _ _ _ _
    exact ⟨[], s, rfl, rfl, rfl, fun k sec bytes h => by simp at h⟩
  | cons p ps ih =>
    intro s hinv hlt hflag hgood
    obtain ⟨ht, hloop, hfuel⟩ := hgood p (List.mem_cons_self _ _)
    have hrest : ∀ q ∈ ps, GoodPhase q := fun q hq => hgood q (List.mem_cons_of_mem _ hq)
    have key : ∃ s1, run s p = some s1 ∧ LoopInv s1 ∧ s1.secCounter = s.secCounter ∧
        (s.secCounter % 2 = 0 → s1.has_send_data = 1 ∧
          ∃ cur, s1.txCalls = s.txCalls ++ reportLine s.secCounter cur s.cpmCounter
            (s.cpmCounter * TUBE_FACTOR % 65536)) ∧
        (s.secCounter % 2 = 1 → s1.has_send_data = 0 ∧ s1.txCalls = s.txCalls) := by
      by_cases heven : s.secCounter % 2 = 0
      · obtain ⟨s1, r1, i1, a1, b1⟩ := phase_even p s hinv ht hfuel heven (hflag heven)
        exact ⟨s1, r1, i1, a1, fun _ => b1 hloop, fun h => by omega⟩
      · have hodd : s.secCounter % 2 = 1 := by omega
        obtain ⟨s1, r1, i1, a1, b1, c1⟩ := phase_odd p s hinv ht hodd
        exact ⟨s1, r1, i1, a1, fun h => absurd h heven, fun _ => ⟨c1 (Or.inr hloop), b1⟩⟩
    obtain ⟨s1, r1, i1, a1, hev, hod⟩ := key
    obtain ⟨w1, _, _⟩ := ISR_WDT_expire_effect s1 (by rw [a1]; exact hlt)
    have wflag := ISR_WDT_expire_flag s1
    rw [a1] at w1
    have hlt2 : (ISR_WDT_expire s1).secCounter < 60 := by rw [w1]; split_ifs <;> omega
    have hflag2 : (ISR_WDT_expire s1).secCounter % 2 = 0 →
        (ISR_WDT_expire s1).has_send_data = 0 := by
      intro h2
      rw [wflag]
      have hodd : s.secCounter % 2 = 1 := by
        rw [w1] at h2
        split_ifs at h2 <;> omega
      exact (hod hodd).1
    obtain ⟨outs, sf, o1, o2, o3, o4⟩ :=
      ih (ISR_WDT_expire s1) (ISR_WDT_expire_loopInv s1 i1) hlt2 hflag2 hrest
    refine ⟨(s.secCounter, s1.txCalls.drop s.txCalls.length) :: outs, sf, ?_, ?_, ?_, ?_⟩
    · simp [phaseOutputs, r1, o1]
    · rw [run_phase_cons s s1 p ps r1]; exact o2
    · simp [o3]
    · intro k sec bytes hk
      cases k with
      | zero =>
        simp only [List.getElem?_cons_zero, Option.some.injEq, Prod.mk.injEq] at hk
        obtain ⟨rfl, rfl⟩ := hk
        refine ⟨by omega, ?_, ?_⟩
        · intro h2
          obtain ⟨_, cur, hc⟩ := hev h2
          exact ⟨cur, s.cpmCounter, by rw [hc]; simp⟩
        · intro h2
          rw [(hod h2).2]; simp
      | succ k =>
        simp only [List.getElem?_cons_succ] at hk
        obtain ⟨q1, q2, q3⟩ := o4 k sec bytes hk
        refine ⟨?_, q2, q3⟩
        rw [q1, w1]
        split_ifs <;> omega

theorem cadence_main (r : State) (ps : List (List Event)) (hgood : ∀ p ∈ ps, GoodPhase p) :
    ∃ outs sf, phaseOutputs (mainInit r) ps = some outs ∧
      run (mainInit r) (phaseTrace ps) = some sf ∧ outs.length = ps.length ∧
      ∀ k sec bytes, outs[k]? = some (sec, bytes) →
        sec = k % 60 ∧
        (sec % 2 = 0 →
          ∃ cur cpm, bytes = reportLine sec cur cpm (cpm * TUBE_FACTOR % 65536)) ∧
        (sec % 2 = 1 → bytes = []) := by
  obtain ⟨hinv, _, _, z3⟩ := mainInit_spec r
  obtain ⟨outs, sf, o1, o2, o3, o4⟩ :=
    cadence_core ps (mainInit r) hinv (by rw [z3]; decide) (fun _ => rfl) hgood
  refine ⟨outs, sf, o1, o2, o3, ?_⟩
  intro k sec bytes hk
  obtain ⟨q1, q2, q3⟩ := o4 k sec bytes hk
  rw [z3, Nat.zero_add] at q1
  exact ⟨q1, q2, q3⟩

/-- C11: let a run from the start of `main` consist of one-second phases, each
ended by its watchdog tick, in each of which the main loop body runs at least
once (port interrupts may come in between, every step atomic).  Then in phase
number `k` the seconds counter is `k % 60`; in a phase where it is even the bytes
handed to the transmitter are exactly one report line, in a phase where it is odd
they are none; and any two phases `2 * j`, `2 * j + 1` together (a two-second
window, in a run of 120 ticks as in any other) hold exactly one report line. -/
theorem report_cadence (r : State) (ps : List (List Event))
    (hgood : ∀ p ∈ ps, GoodPhase p) :
    ∃ outs sf, phaseOutputs (mainInit r) ps = some outs ∧
      run (mainInit r) (phaseTrace ps) = some sf ∧ outs.length = ps.length ∧
      (∀ k sec bytes, outs[k]? = some (sec, bytes) →
        sec = k % 60 ∧
        (sec % 2 = 0 →
          ∃ cur cpm, bytes = reportLine sec cur cpm (cpm * TUBE_FACTOR % 65536)) ∧
        (sec % 2 = 1 → bytes = [])) ∧
      (∀ j a x b y, outs[2 * j]? = some (a, x) → outs[2 * j + 1]? = some (b, y) →
        ∃ cur cpm, x ++ y = reportLine a cur cpm (cpm * TUBE_FACTOR % 65536)) := by
  obtain ⟨outs, sf, o1, o2, o3, o4⟩ := cadence_main r ps hgood
  refine ⟨outs, sf, o1, o2, o3, o4, ?_⟩
  intro j a x b y hx hy
  obtain ⟨a1, a2, _⟩ := o4 (2 * j) a x hx
  obtain ⟨b1, _, b3⟩ := o4 (2 * j + 1) b y hy
  obtain ⟨cur, cpm, hc⟩ := a2 (by omega)
  exact ⟨cur, cpm, by rw [b3 (by omega), List.append_nil, hc]⟩

theorem report_cadence_witness :
    ∃ outs sf, phaseOutputs (mainInit zeroRegs) (List.replicate 120 [Event.loop 11]) = some outs ∧
      run (mainInit zeroRegs) (phaseTrace (List.replicate 120 [Event.loop 11])) = some sf ∧
      outs.length = (List.replicate 120 [Event.loop 11]).length ∧
      (∀ k sec bytes, outs[k]? = some (sec, bytes) →
        sec = k % 60 ∧
        (sec % 2 = 0 →
          ∃ cur cpm, bytes = reportLine sec cur cpm (cpm * TUBE_FACTOR % 65536)) ∧
        (sec % 2 = 1 → bytes = [])) ∧
      (∀ j a x b y, outs[2 * j]? = some (a, x) → outs[2 * j + 1]? = some (b, y) →
        ∃ cur cpm, x ++ y = reportLine a cur cpm (cpm * TUBE_FACTOR % 65536)) :=
  report_cadence zeroRegs (List.replicate 120 [Event.loop 11])
    (by
      intro p hp
      rw [List.eq_of_mem_replicate hp]
      exact ⟨rfl, ⟨11, List.mem_cons_self _ _⟩, fun f hf => by simp at hf; omega⟩)

/-- C12, as the code has it: there is no double even phase.  In every state
reached from the start of `main`, a watchdog tick changes the parity of
`secCounter`; the rollover tick is taken at `secCounter = 59`, which is odd, and
leaves 0, which is even.  So around the rollover the cadence is the usual one: in
a run of phases in each of which the loop body runs, phase 59 hands nothing to
the transmitter and phase 60, the first after the rollover, exactly one report
line. -/
theorem rollover_parity (r : State) (trace : List Event) (s : State)
    (h : run (mainInit r) trace = some s) :
    (ISR_WDT_expire s).secCounter % 2 ≠ s.secCounter % 2 ∧
    ((s.secCounter + 1) % 256 = MINUTE →
      s.secCounter = 59 ∧ s.secCounter % 2 = 1 ∧ (ISR_WDT_expire s).secCounter = 0) ∧
    (∀ ps : List (List Event), (∀ p ∈ ps, GoodPhase p) →
      ∃ outs, phaseOutputs (mainInit r) ps = some outs ∧
        ∀ a x b y, outs[59]? = some (a, x) → outs[60]? = some (b, y) →
          a = 59 ∧ x = [] ∧ b = 0 ∧
          ∃ cur cpm, y = reportLine 0 cur cpm (cpm * TUBE_FACTOR % 65536)) := by
  obtain ⟨_, z1, z2, z3⟩ := mainInit_spec r
  obtain ⟨isec, _, _⟩ := run_counters (mainInit r) z1 z2 z3 trace s h
  have hlt : s.secCounter < 60 := by rw [isec]; exact Nat.mod_lt _ (by decide)
  obtain ⟨w1, _, _⟩ := ISR_WDT_expire_effect s hlt
  refine ⟨?_, ?_, ?_⟩
  · rw [w1]; split_ifs <;> omega
  · intro hm
    simp only [MINUTE] at hm
    have h59 : s.secCounter = 59 := by omega
    refine ⟨h59, by omega, ?_⟩
    rw [w1, if_pos h59]
  · intro ps hgood
    obtain ⟨outs, _, o1, _, _, o4⟩ := cadence_main r ps hgood
    refine ⟨outs, o1, ?_⟩
    intro a x b y hx hy
    obtain ⟨a1, _, a3⟩ := o4 59 a x hx
    obtain ⟨b1, b2, _⟩ := o4 60 b y hy
    have ha : a = 59 := a1
    have hb : b = 0 := b1
    obtain ⟨cur, cpm, hc⟩ := b2 (by omega)
    rw [hb] at hc
    exact ⟨ha, a3 (by omega), hb, cur, cpm, hc⟩

set_option maxRecDepth 100000 in
theorem rollover_parity_witness :
    (ISR_WDT_expire { bootState with secCounter := 59 }).secCounter % 2 ≠
      ({ bootState with secCounter := 59 } : State).secCounter % 2 ∧
    ((({ bootState with secCounter := 59 } : State).secCounter + 1) % 256 = MINUTE →
      ({ bootState with secCounter := 59 } : State).secCounter = 59 ∧
      ({ bootState with secCounter := 59 } : State).secCounter % 2 = 1 ∧
      (ISR_WDT_expire { bootState with secCounter := 59 }).secCounter = 0) :=
  ⟨(rollover_parity zeroRegs (List.replicate 59 Event.wdt) { bootState with secCounter := 59 }
      (by rfl)).1,
    (rollover_parity zeroRegs (List.replicate 59 Event.wdt) { bootState with secCounter := 59 }
      (by rfl)).2.1⟩

/-- C12 as stated fails: no run from the start of `main` reaches a rollover tick
(one at which the handler finds `MINUTE == secCounter` after its increment) with
`secCounter` even both before and after the tick. -/
theorem no_double_even_phase :
    ¬ ∃ (r : State) (trace : List Event) (s : State),
      run (mainInit r) trace = some s ∧ (s.secCounter + 1) % 256 = MINUTE ∧
      s.secCounter % 2 = 0 ∧ (ISR_WDT_expire s).secCounter % 2 = 0 := by
  rintro ⟨r, trace, s, _, hm, heven, _⟩
  simp only [MINUTE] at hm
  omega

/-! ## Dose rate and field printing -/

/-- C18: the dose rate the reporting loop stores for `cpmCounter = c` is
`(c * 57) % 65536`; it is `c * 57` exactly when `c ≤ 1149`; for `c = 1149` it is
65493 and for `c = 1150` it is 14, which is smaller, so the reported dose rate is
not monotone in the count. -/
theorem dose_rate_wraps (fuel : Nat) (s : State) (hf : 10 < fuel)
    (hlt : s.txBitCnt < fuel) (heven : s.secCounter % 2 = 0) (hflag : s.has_send_data = 0)
    (h1 : IsField s.secondsAscii) (h2 : IsField s.counterAscii) (h3 : IsField s.cpmAscii)
    (h4 : IsField s.uSvPerHourAscii) :
    ∃ s1, mainLoopBody fuel s = some s1 ∧
      s1.uSvPerHour = (s.cpmCounter * 57) % 65536 ∧
      (s1.uSvPerHour = s.cpmCounter * 57 ↔ s.cpmCounter ≤ 1149) ∧
      (s.cpmCounter = 1149 → s1.uSvPerHour = 65493) ∧
      (s.cpmCounter = 1150 → s1.uSvPerHour = 14) ∧
      (1149 : Nat) < 1150 ∧ (14 : Nat) < 65493 := by
  obtain ⟨s1, e1, _, d1, _⟩ := mainLoopBody_report fuel s hf hlt heven hflag h1 h2 h3 h4
  have d2 : s1.uSvPerHour = (s.cpmCounter * 57) % 65536 := d1
  refine ⟨s1, e1, d2, ?_, ?_, ?_, by decide, by decide⟩
  · rw [d2]; omega
  · intro hc; rw [d2, hc]
  · intro hc; rw [d2, hc]

theorem dose_rate_wraps_witness :
    ∃ s1, mainLoopBody 11 { bootState with cpmCounter := 1150 } = some s1 ∧
      s1.uSvPerHour = 14 := by
  obtain ⟨s1, e1, _, _, _, h1150, _⟩ :=
    dose_rate_wraps 11 { bootState with cpmCounter := 1150 } (by decide) (by decide)
      (by decide) (by decide) ⟨rfl, rfl⟩ ⟨rfl, rfl⟩ ⟨rfl, rfl⟩ ⟨rfl, rfl⟩
  exact ⟨s1, e1, h1150 rfl⟩

/-- C19: for every uint16 `v` and every six-cell buffer whose last cell is 0,
`intToChars` changes cells 0..4 only (cell 5 stays 0, the length stays 6) and
stores no zero there, so `TimerA_UART_print` of the buffer hands to
`TimerA_UART_tx` exactly the five digit characters of `v` (which read back as
`v`), no fewer and no more. -/
theorem field_printed_in_full (fuel : Nat) (s : State) (v : Nat) (buf : List Nat)
    (hv : v < 65536) (hbuf : IsField buf) (hf : 10 < fuel) (hlt : s.txBitCnt < fuel) :
    (intToChars v buf).length = 6 ∧
    (intToChars v buf)[5]? = buf[5]? ∧
    (∀ i, i < 5 → ∃ d, (intToChars v buf)[i]? = some d ∧ d ≠ 0 ∧
      d = 48 + (v / 10 ^ (4 - i)) % 10) ∧
    ∃ s1, TimerA_UART_print fuel s (intToChars v buf) = some s1 ∧
      s1.txCalls = s.txCalls ++ (intToChars v buf).take 5 ∧
      ((intToChars v buf).take 5).length = 5 ∧
      (intToChars v buf).take 5 =
        [48 + v / 10000 % 10, 48 + v / 1000 % 10, 48 + v / 100 % 10, 48 + v / 10 % 10,
          48 + v % 10] ∧
      parseDecimal ((intToChars v buf).take 5) = v := by
  obtain ⟨e1, g1⟩ := intToChars_field v buf hbuf
  have hfive : (intToChars v buf).take 5 = fmt v := by rw [e1]; simp [fmt_eq]
  refine ⟨g1.1, by rw [g1.2, hbuf.2], ?_, ?_⟩
  · intro i hi
    rw [e1, fmt_eq]
    interval_cases i <;> simp <;> omega
  · obtain ⟨s1, p1, _, _, _, c1⟩ :=
      TimerA_UART_print_spec fuel hf [] (fmt v) s (fmt_ne_zero v) hlt
    refine ⟨s1, by rw [e1]; exact p1, by rw [c1, hfive], by rw [hfive, fmt_eq]; rfl, ?_, ?_⟩
    · rw [hfive, fmt_eq]; simp [Nat.add_comm]
    · rw [hfive, fmt_eq]
      simp [parseDecimal, ASCII_DIGIT_START]
      omega

theorem field_printed_in_full_witness :
    ∃ s1, TimerA_UART_print 11 bootState (intToChars 7 [9, 9, 9, 9, 9, 0]) = some s1 ∧
      s1.txCalls = bootState.txCalls ++ (intToChars 7 [9, 9, 9, 9, 9, 0]).take 5 ∧
      ((intToChars 7 [9, 9, 9, 9, 9, 0]).take 5).length = 5 ∧
      (intToChars 7 [9, 9, 9, 9, 9, 0]).take 5 =
        [48 + 7 / 10000 % 10, 48 + 7 / 1000 % 10, 48 + 7 / 100 % 10, 48 + 7 / 10 % 10,
          48 + 7 % 10] ∧
      parseDecimal ((intToChars 7 [9, 9, 9, 9, 9, 0]).take 5) = 7 :=
  (field_printed_in_full 11 bootState 7 [9, 9, 9, 9, 9, 0] (by decide) ⟨rfl, rfl⟩ (by decide)
    (by decide)).2.2.2

set_option maxRecDepth 100000 in
theorem idle_line_high_witness :
    ∃ s, uartRun (mainInit zeroRegs)
        (UartEvent.arm 0x41 :: (List.replicate 11 UartEvent.timer ++ [UartEvent.port 0x18]))
          = some s ∧
      s.TACCTL0 &&& CCIE = 0 ∧ txPin s = 1 :=
  ⟨_, rfl, by decide,
    idle_line_high.2.2 zeroRegs
      (UartEvent.arm 0x41 :: (List.replicate 11 UartEvent.timer ++ [UartEvent.port 0x18])) _
      rfl (by decide)⟩

end GeigerMuller
